import Mathlib

/-!
Verification development for the `ideal_group` optimization core
(`src/ideal_group/algorithm.py` and `src/ideal_group/models.py`).

The Python data model and the scoring / annealing functions are shallowly
embedded below.  Python floats are modelled as exact rationals (`ℚ`),
Python `int` as `ℤ`, Python lists as `List`, Python sets as `Finset ℤ`
(iteration order over sets only feeds commutative sums, so a `Finset.sum`
is a faithful translation), and Python dicts with string keys as
association lists with distinct keys.  The process-global `random` module
is modelled as an explicit oracle state (`Tape`) threaded through every
function that consumes randomness, and `math.exp` (a float routine whose
exact values the algorithm treats as an opaque acceptance threshold) is
modelled as an oracle parameter `expOracle` of the annealing parameters.
-/

namespace IdealGroup

/-- Value of one characteristic of a student: the Python code stores
booleans, numbers, or `None` in the `characteristics` dict and only the
boolean-`True` branch drives constraints (`models.py`, `algorithm.py`). -/
inductive CharValue where
  | bool (b : Bool)
  | num (q : ℚ)
  | null
deriving DecidableEq, Repr

/-- `Student` dataclass from `models.py`.  `characteristics` is a Python
dict (insertion-ordered, distinct keys) modelled as an association list. -/
structure Student where
  id : ℤ
  name : String
  characteristics : List (String × CharValue) := []
  liked : List ℤ := []
  disliked : List ℤ := []
deriving DecidableEq, Repr, Inhabited

/-- `ConstraintType` enum from `models.py`. -/
inductive ConstraintType where
  | ALL
  | SOME
  | MAX
deriving DecidableEq, Repr, Inhabited

/-- `Constraint` dataclass from `models.py`. -/
structure Constraint where
  characteristic : String
  constraint_type : ConstraintType
  value : Option ℤ := none
deriving DecidableEq, Repr, Inhabited

/-- `Group` dataclass from `models.py`. -/
structure Group where
  name : String
  max_size : ℤ
  constraints : List Constraint := []
  student_ids : List ℤ := []
  pinned_student_ids : List ℤ := []
deriving DecidableEq, Repr, Inhabited

/-- `ColumnMapping` dataclass from `models.py` (opaque to the core, but
serialized by `Project.to_dict`). -/
structure ColumnMapping where
  id_column : String := ""
  name_column : String := ""
  firstname_column : String := ""
  lastname_column : String := ""
  use_separate_name_columns : Bool := false
  liked_column : String := ""
  disliked_column : String := ""
  characteristic_columns : List (String × String) := []
deriving DecidableEq, Repr, Inhabited

/-- `Weights` dataclass from `models.py`. -/
structure Weights where
  likes_weight : ℚ := 1
  dislikes_weight : ℚ := 2
  characteristic_weights : List (String × ℚ) := []
deriving DecidableEq, Repr, Inhabited

/-- `Project` dataclass from `models.py`. -/
structure Project where
  excel_path : String := ""
  column_mapping : ColumnMapping := {}
  students : List Student := []
  groups : List Group := []
  weights : Weights := {}
deriving DecidableEq, Repr, Inhabited

/-- `student.characteristics.get(char) is True` from the Python code:
dict lookup (first matching key of the association list) and an identity
test against `True`. -/
def charIsTrue (s : Student) (c : String) : Bool :=
  match s.characteristics.find? (fun p => p.1 == c) with
  | some (_, CharValue.bool true) => true
  | _ => false

/-- `_build_lookup` (algorithm.py line 24): `{s.id: s for s in project.students}`.
A Python dict comprehension keeps the last binding for a duplicated key,
hence the `reverse`. -/
def _build_lookup (project : Project) : ℤ → Option Student :=
  fun i => project.students.reverse.find? (fun s => s.id == i)

/-- Number of ids of `l` that have characteristic `char` true under
`lookup`: the `sum(1 for sid in ... if lookup.get(sid) and ...)` pattern
used throughout `algorithm.py`. -/
def countCharInList (lookup : ℤ → Option Student) (l : List ℤ) (char : String) : ℕ :=
  (l.filter (fun sid =>
    match lookup sid with
    | some s => charIsTrue s char
    | none => false)).length

/-- Peer-preference score of one student row inside a group with member-id
set `gids`: `len(set(s.liked) & gids) * likes_w - len(set(s.disliked) & gids) * dislikes_w`
(the row summed by `full_score` in `simulated_annealing` and by the per-restart
rescore in `optimize_with_restarts`). -/
def rowScore (lookup : ℤ → Option Student) (likes_w dislikes_w : ℚ)
    (gids : Finset ℤ) (sid : ℤ) : ℚ :=
  match lookup sid with
  | some s =>
      ((s.liked.toFinset ∩ gids).card : ℚ) * likes_w
        - ((s.disliked.toFinset ∩ gids).card : ℚ) * dislikes_w
  | none => 0

/-- Peer-preference score of one group: iterate the `student_ids` list and
sum the rows (algorithm.py lines 459-465, 647-653). -/
def groupPeer (lookup : ℤ → Option Student) (likes_w dislikes_w : ℚ) (g : Group) : ℚ :=
  (g.student_ids.map (rowScore lookup likes_w dislikes_w g.student_ids.toFinset)).sum

/-- Total peer-preference score over all groups (the double loop of
`full_score` in `simulated_annealing`, before the penalty is subtracted). -/
def peerScore (lookup : ℤ → Option Student) (likes_w dislikes_w : ℚ)
    (groups : List Group) : ℚ :=
  (groups.map (groupPeer lookup likes_w dislikes_w)).sum

/-- Union of all `pinned_student_ids` (algorithm.py lines 98-100). -/
def pinnedStudents (project : Project) : Finset ℤ :=
  project.groups.foldl (fun acc g => acc ∪ g.pinned_student_ids.toFinset) ∅

/-- `char_students.get(c, set())`: ids of non-pinned students whose
characteristic `c` is `True` (algorithm.py lines 102-109). -/
def charStudents (project : Project) (pinned : Finset ℤ) (c : String) : Finset ℤ :=
  ((project.students.filter (fun s => decide (s.id ∉ pinned) && charIsTrue s c)).map
    (fun s => s.id)).toFinset

/-- Penalty contribution of one constraint of one group inside
`calculate_constraint_penalty` (algorithm.py lines 119-139).  Note the
Python truthiness test `if constraint.value and ...` on the MAX branch:
a `None` or `0` cap disables the constraint. -/
def constraintPenaltyFor (project : Project) (lookup : ℤ → Option Student)
    (pinned : Finset ℤ) (g : Group) (c : Constraint) : ℚ :=
  let students_with_char := charStudents project pinned c.characteristic
  let group_ids := g.student_ids.toFinset
  let pinned_in_group := g.pinned_student_ids.toFinset
  let non_pinned_in_group := group_ids \ pinned_in_group
  let students_with_char_in_group := students_with_char ∩ non_pinned_in_group
  match c.constraint_type with
  | ConstraintType.ALL =>
      (((students_with_char \ group_ids).card : ℚ)) * 50
  | ConstraintType.MAX =>
      match c.value with
      | some v =>
          if v ≠ 0 ∧ (students_with_char_in_group.card : ℤ) > v then
            (((students_with_char_in_group.card : ℤ) - v : ℤ) : ℚ) * 50
          else 0
      | none => 0
  | ConstraintType.SOME =>
      if countCharInList lookup g.student_ids c.characteristic = 0 then 25 else 0

/-- Over-capacity penalty of one group (algorithm.py lines 116-117). -/
def sizePenalty (g : Group) : ℚ :=
  if (g.student_ids.length : ℤ) > g.max_size then
    (((g.student_ids.length : ℤ) - g.max_size : ℤ) : ℚ) * 100
  else 0

/-- `calculate_constraint_penalty` (algorithm.py lines 95-141). -/
def calculate_constraint_penalty (project : Project) (lookup : ℤ → Option Student) : ℚ :=
  let pinned := pinnedStudents project
  (project.groups.map (fun g =>
    sizePenalty g
      + (g.constraints.map (constraintPenaltyFor project lookup pinned g)).sum)).sum

/-- `calculate_total_score` (algorithm.py lines 806-817); the same formula
is inlined by `optimize_with_restarts` for its per-restart rescore. -/
def calculate_total_score (project : Project) : ℚ :=
  let lookup := _build_lookup project
  peerScore lookup project.weights.likes_weight project.weights.dislikes_weight
      project.groups
    - calculate_constraint_penalty project lookup

/-- `_student_delta` (algorithm.py lines 32-88): score change caused by one
student leaving the member set `old_group_ids` and entering
`new_group_ids` (both taken after the student is removed). -/
def _student_delta (student_id : ℤ) (old_group_ids new_group_ids : Finset ℤ)
    (lookup : ℤ → Option Student) (likes_w dislikes_w : ℚ) : ℚ :=
  match lookup student_id with
  | none => 0
  | some student =>
      let likes_lost := ((student.liked.toFinset ∩ old_group_ids).card : ℚ)
      let likes_gained := ((student.liked.toFinset ∩ new_group_ids).card : ℚ)
      let dislikes_lost := ((student.disliked.toFinset ∩ old_group_ids).card : ℚ)
      let dislikes_gained := ((student.disliked.toFinset ∩ new_group_ids).card : ℚ)
      (likes_gained - likes_lost) * likes_w
        - (dislikes_gained - dislikes_lost) * dislikes_w
        + old_group_ids.sum (fun oid =>
            match lookup oid with
            | none => 0
            | some other =>
                (if student_id ∈ other.liked then -likes_w else 0)
                  + (if student_id ∈ other.disliked then dislikes_w else 0))
        + new_group_ids.sum (fun nid =>
            match lookup nid with
            | none => 0
            | some other =>
                (if student_id ∈ other.liked then likes_w else 0)
                  + (if student_id ∈ other.disliked then -dislikes_w else 0))

/-- `_constraint_penalty_delta_swap` (algorithm.py lines 144-195).  The
first assignment to `before_violation` in the Python source is immediately
overwritten (lines 175-177); only the final value is translated. -/
def _constraint_penalty_delta_swap (s1_id : ℤ) (g1 : Group) (s2_id : ℤ) (g2 : Group)
    (lookup : ℤ → Option Student) : ℚ :=
  match lookup s1_id, lookup s2_id with
  | some s1, some s2 =>
      (g2.constraints.map (fun c =>
        match c.constraint_type, c.value with
        | ConstraintType.MAX, some v =>
            if v ≠ 0 ∧ charIsTrue s1 c.characteristic then
              let current := (countCharInList lookup g2.student_ids c.characteristic : ℤ)
              let leaving : ℤ := if charIsTrue s2 c.characteristic then 1 else 0
              let after := current - leaving + 1
              let before_violation := max 0 (current - v)
              let after_violation := max 0 (after - v)
              ((after_violation - before_violation : ℤ) : ℚ) * 50
            else 0
        | _, _ => 0)).sum
      + (g1.constraints.map (fun c =>
        match c.constraint_type, c.value with
        | ConstraintType.MAX, some v =>
            if v ≠ 0 ∧ charIsTrue s2 c.characteristic then
              let current := (countCharInList lookup g1.student_ids c.characteristic : ℤ)
              let leaving : ℤ := if charIsTrue s1 c.characteristic then 1 else 0
              let after := current - leaving + 1
              let before_violation := max 0 (current - v)
              let after_violation := max 0 (after - v)
              ((after_violation - before_violation : ℤ) : ℚ) * 50
            else 0
        | _, _ => 0)).sum
  | _, _ => 0

/-- `_constraint_penalty_delta_move` (algorithm.py lines 198-246). -/
def _constraint_penalty_delta_move (student_id : ℤ) (source target : Group)
    (lookup : ℤ → Option Student) : ℚ :=
  match lookup student_id with
  | none => 0
  | some student =>
      (if (source.student_ids.length : ℤ) > source.max_size then (-100 : ℚ) else 0)
      + (if (target.student_ids.length : ℤ) ≥ target.max_size then (100 : ℚ) else 0)
      + (target.constraints.map (fun c =>
          match c.constraint_type with
          | ConstraintType.MAX =>
              match c.value with
              | some v =>
                  if v ≠ 0 ∧ charIsTrue student c.characteristic then
                    let current := (countCharInList lookup target.student_ids
                      c.characteristic : ℤ)
                    let before_v := max 0 (current - v)
                    let after_v := max 0 (current + 1 - v)
                    ((after_v - before_v : ℤ) : ℚ) * 50
                  else 0
              | none => 0
          | ConstraintType.SOME =>
              if countCharInList lookup target.student_ids c.characteristic = 0
                  ∧ charIsTrue student c.characteristic then (-25 : ℚ)
              else 0
          | ConstraintType.ALL => 0)).sum
      + (source.constraints.map (fun c =>
          match c.constraint_type with
          | ConstraintType.SOME =>
              if charIsTrue student c.characteristic
                  ∧ countCharInList lookup source.student_ids c.characteristic = 1
              then (25 : ℚ) else 0
          | _ => 0)).sum

/-- Replace the element at index `i` (used to model in-place mutation of
`project.groups[i]`); out-of-range indices leave the list unchanged. -/
def updateAt {α : Type} : List α → ℕ → (α → α) → List α
  | [], _, _ => []
  | x :: xs, 0, f => f x :: xs
  | x :: xs, n + 1, f => x :: updateAt xs n f

/-- `_get_movable` (algorithm.py lines 348-350). -/
def _get_movable (g : Group) : List ℤ :=
  g.student_ids.filter (fun sid => !g.pinned_student_ids.contains sid)

/-- `_apply_move` (algorithm.py lines 361-363): Python `list.remove`
removes the first occurrence, `append` adds at the end. -/
def _apply_move (groups : List Group) (src_i tgt_i : ℕ) (sid : ℤ) : List Group :=
  let groups := updateAt groups src_i
    (fun g => { g with student_ids := g.student_ids.erase sid })
  updateAt groups tgt_i (fun g => { g with student_ids := g.student_ids ++ [sid] })

/-- `_apply_swap` (algorithm.py lines 353-358), as the same sequence of
single-list mutations as the Python source. -/
def _apply_swap (groups : List Group) (gi1 gi2 : ℕ) (s1_id s2_id : ℤ) : List Group :=
  let groups := updateAt groups gi1
    (fun g => { g with student_ids := g.student_ids.erase s1_id })
  let groups := updateAt groups gi2
    (fun g => { g with student_ids := g.student_ids.erase s2_id })
  let groups := updateAt groups gi1
    (fun g => { g with student_ids := g.student_ids ++ [s2_id] })
  updateAt groups gi2 (fun g => { g with student_ids := g.student_ids ++ [s1_id] })

/-- Candidate mutation generated by one iteration of the annealing loop
(the three branches of algorithm.py lines 489-563). -/
inductive Cand where
  | swap (gi1 gi2 : ℕ) (s1_id s2_id : ℤ)
  | move (src_i tgt_i : ℕ) (sid : ℤ)
deriving DecidableEq, Repr

/-- Apply an accepted candidate to the groups. -/
def applyCand (groups : List Group) : Cand → List Group
  | Cand.swap gi1 gi2 s1 s2 => _apply_swap groups gi1 gi2 s1 s2
  | Cand.move src tgt sid => _apply_move groups src tgt sid

/-- Peer-score delta the annealing loop computes for a candidate
(algorithm.py lines 501-506 for a swap, 533-535 and 553-555 for a move):
`set(group.student_ids) - {sid}` is the `Finset.erase`. -/
def candPeerDelta (lookup : ℤ → Option Student) (likes_w dislikes_w : ℚ)
    (groups : List Group) : Cand → ℚ
  | Cand.swap gi1 gi2 s1 s2 =>
      let g1_ids := ((groups.getD gi1 default).student_ids.toFinset).erase s1
      let g2_ids := ((groups.getD gi2 default).student_ids.toFinset).erase s2
      _student_delta s1 g1_ids g2_ids lookup likes_w dislikes_w
        + _student_delta s2 g2_ids g1_ids lookup likes_w dislikes_w
  | Cand.move src tgt sid =>
      _student_delta sid (((groups.getD src default).student_ids.toFinset).erase sid)
        ((groups.getD tgt default).student_ids.toFinset) lookup likes_w dislikes_w

/-- Constraint-penalty delta the annealing loop subtracts for a candidate
(algorithm.py lines 507, 536, 556). -/
def candPenaltyDelta (lookup : ℤ → Option Student) (groups : List Group) : Cand → ℚ
  | Cand.swap gi1 gi2 s1 s2 =>
      _constraint_penalty_delta_swap s1 (groups.getD gi1 default) s2
        (groups.getD gi2 default) lookup
  | Cand.move src tgt sid =>
      _constraint_penalty_delta_move sid (groups.getD src default)
        (groups.getD tgt default) lookup

/-- Validity of a candidate relative to the current groups: indices are in
range and distinct, and the touched students are movable (non-pinned
members) of their groups — exactly the data the three candidate
generators guarantee. -/
@[reducible] def CandOk (groups : List Group) : Cand → Prop
  | Cand.swap gi1 gi2 s1 s2 =>
      gi1 < groups.length ∧ gi2 < groups.length ∧ gi1 ≠ gi2
        ∧ s1 ∈ _get_movable (groups.getD gi1 default)
        ∧ s2 ∈ _get_movable (groups.getD gi2 default)
  | Cand.move src tgt sid =>
      src < groups.length ∧ tgt < groups.length ∧ src ≠ tgt
        ∧ sid ∈ _get_movable (groups.getD src default)

/-- The movability facts every candidate generator guarantees: each moved
student is a non-pinned member of its source group. -/
def CandMovable (groups : List Group) : Cand → Prop
  | Cand.swap gi1 gi2 s1 s2 =>
      s1 ∈ _get_movable (groups.getD gi1 default)
        ∧ s2 ∈ _get_movable (groups.getD gi2 default)
  | Cand.move src _ sid => sid ∈ _get_movable (groups.getD src default)

/-- Everything of a group except its member list. -/
def groupShape (g : Group) : String × ℤ × List Constraint × List ℤ :=
  (g.name, g.max_size, g.constraints, g.pinned_student_ids)

/-- Every pinned id of every group is among the group's members. -/
def pinnedSubset (groups : List Group) : Prop :=
  ∀ g ∈ groups, ∀ x ∈ g.pinned_student_ids, x ∈ g.student_ids

/-- The moved students exist in the project (valid projects satisfy this
for every assigned id). -/
@[reducible] def CandLookup (lookup : ℤ → Option Student) : Cand → Prop
  | Cand.swap _ _ s1 s2 => (lookup s1).isSome ∧ (lookup s2).isSome
  | Cand.move _ _ sid => (lookup sid).isSome

/-- Directed preference weight of `a` toward `b` (proof-side view of one
like/dislike edge; `0` when `a` is not a known student). -/
def wPref (lookup : ℤ → Option Student) (likes_w dislikes_w : ℚ) (a b : ℤ) : ℚ :=
  match lookup a with
  | some s =>
      (if b ∈ s.liked then likes_w else 0) - (if b ∈ s.disliked then dislikes_w else 0)
  | none => 0

/-- Proof-side double sum of the preference weights inside one member set. -/
def pairSum (lookup : ℤ → Option Student) (likes_w dislikes_w : ℚ) (F : Finset ℤ) : ℚ :=
  ∑ a ∈ F, ∑ b ∈ F, wPref lookup likes_w dislikes_w a b

/-- State of the process-global `random` module, modelled as an oracle
stream of naturals consumed by every randomized primitive. -/
structure Tape where
  vals : List ℕ
deriving DecidableEq, Repr

/-- Pop the next oracle value (an exhausted tape yields zeroes). -/
def Tape.next (t : Tape) : ℕ × Tape :=
  match t.vals with
  | [] => (0, { vals := [] })
  | v :: rest => (v, { vals := rest })

/-- `random.random()`: a rational in `[0, 1)` read from the oracle. -/
def randFloat (t : Tape) : ℚ × Tape :=
  let (n, t1) := t.next
  (((n % 1000000 : ℕ) : ℚ) / 1000000, t1)

/-- `random.choice(l)`: an oracle-selected element of `l` (callers guard
non-emptiness, as the Python code does). -/
def randChoice {α : Type} (l : List α) (d : α) (t : Tape) : α × Tape :=
  let (n, t1) := t.next
  (l.getD (n % l.length) d, t1)

/-- `random.sample(l, 2)`: two elements at oracle-selected distinct
positions (callers guard `2 ≤ l.length`). -/
def sample2 {α : Type} (l : List α) (d : α) (t : Tape) : (α × α) × Tape :=
  let (n1, t1) := t.next
  let (n2, t2) := t1.next
  let i := n1 % l.length
  let j0 := n2 % (l.length - 1)
  let j := if j0 ≥ i then j0 + 1 else j0
  ((l.getD i d, l.getD j d), t2)

/-- Exchange the elements at positions `i` and `j`. -/
def swapAt {α : Type} (l : List α) (i j : ℕ) : List α :=
  match l[i]?, l[j]? with
  | some x, some y => (l.set i y).set j x
  | _, _ => l

/-- Fisher–Yates walk for `random.shuffle`, from position `i` down to 1. -/
def shuffleGo {α : Type} : List α → Tape → ℕ → List α × Tape
  | l, t, 0 => (l, t)
  | l, t, i + 1 =>
      let (n, t1) := t.next
      let j := n % (i + 2)
      shuffleGo (swapAt l (i + 1) j) t1 i

/-- `random.shuffle(l)`. -/
def shuffle {α : Type} (l : List α) (t : Tape) : List α × Tape :=
  shuffleGo l t (l.length - 1)

/-- Stable insertion of `x` into a descending-ordered list: `x` goes in
front of the first element it is `ge`-related to, so among `ge`-ties the
earlier-inserted element stays first. -/
def insertDescBy {α : Type} (ge : α → α → Bool) (x : α) : List α → List α
  | [] => [x]
  | y :: ys => if ge x y then x :: y :: ys else y :: insertDescBy ge x ys

/-- Stable descending sort; the stable sort by a total preorder is unique,
so this is a faithful model of Python's stable `sorted(..., reverse=True)`. -/
def sortDescBy {α : Type} (ge : α → α → Bool) : List α → List α
  | [] => []
  | x :: xs => insertDescBy ge x (sortDescBy ge xs)

/-- Descending lexicographic comparison of `(score, group_idx, student_id)`
triples: Python tuple comparison, as used by `candidates.sort(reverse=True)`. -/
def geLex3 (a b : ℕ × ℕ × ℤ) : Bool :=
  a.1 > b.1 || (a.1 == b.1 && (a.2.1 > b.2.1 || (a.2.1 == b.2.1 && a.2.2 ≥ b.2.2)))

/-- Descending lexicographic comparison of `(score, group_idx)` pairs for
`scored_targets.sort(reverse=True)`. -/
def geLex2 (a b : ℤ × ℕ) : Bool :=
  a.1 > b.1 || (a.1 == b.1 && a.2 ≥ b.2)

/-- The `candidates` list of `_pick_smart_move` (algorithm.py lines 375-390). -/
def smartCandidates (groups : List Group) (lookup : ℤ → Option Student) :
    List (ℕ × ℕ × ℤ) :=
  (List.range groups.length).flatMap (fun i =>
    let g := groups.getD i default
    let gids := g.student_ids.toFinset
    g.student_ids.filterMap (fun sid =>
      if g.pinned_student_ids.contains sid then none
      else
        match lookup sid with
        | none => none
        | some student =>
            let score := (student.disliked.toFinset ∩ gids).card
              + (student.liked.toFinset \ gids).card
            if score > 0 then some (score, i, sid) else none))

/-- `_pick_smart_move` (algorithm.py lines 370-417). -/
def _pick_smart_move (groups : List Group) (lookup : ℤ → Option Student) (t : Tape) :
    Option (ℕ × ℕ × ℤ) × Tape :=
  let candidates := smartCandidates groups lookup
  if candidates.isEmpty then (none, t)
  else
    let sorted := sortDescBy geLex3 candidates
    let top := sorted.take (max 1 (sorted.length / 3))
    let (c, t1) := randChoice top (0, 0, 0) t
    let src_i := c.2.1
    let sid := c.2.2
    match lookup sid with
    | none => (none, t1)
    | some student =>
        let scored_targets := ((List.range groups.length).filter (fun j => j ≠ src_i)).map
          (fun j =>
            let gids := (groups.getD j default).student_ids.toFinset
            (((student.liked.toFinset ∩ gids).card : ℤ)
              - ((student.disliked.toFinset ∩ gids).card : ℤ), j))
        if scored_targets.isEmpty then (none, t1)
        else
          let sortedT := sortDescBy geLex2 scored_targets
          let topT := sortedT.take (max 1 (sortedT.length / 2))
          let (tj, t2) := randChoice topT (0, 0) t1
          (some (src_i, tj.2, sid), t2)

/-- One progress event `(iteration, temperature, best_score)` as passed to
the `simulated_annealing` progress callback. -/
abbrev SAEvent := ℕ × ℚ × ℚ

/-- Parameters of `simulated_annealing`; the default floats of the Python
signature are carried as exact rationals, and `expOracle` stands in for
the values the float routine `math.exp` returns in the acceptance test. -/
structure SAParams where
  initial_temp : ℚ := 150
  cooling_rate : ℚ := 9997 / 10000
  min_temp : ℚ := 1 / 100
  max_iterations : ℕ := 30000
  expOracle : ℚ → ℚ

/-- Mutable state of the annealing loop.  The Python locals
`student_to_group` (written but never read) and the verbose-print
counters (`moves_accepted` and friends, used only by `print`, which the
embedding does not model) are omitted; `events` collects the progress
callback invocations. -/
structure SAState where
  groups : List Group
  current_score : ℚ
  best_score : ℚ
  best_groups : List Group
  temperature : ℚ
  iterations_since_improvement : ℕ
  events : List SAEvent
  tape : Tape

/-- Candidate-generation failure: `temperature *= cooling_rate; continue`
(algorithm.py lines 494-495, 521-522, 529-530, 549-550) — note the
`continue` skips the bookkeeping AND the progress callback. -/
def coolCont (params : SAParams) (st : SAState) (t : Tape) : SAState :=
  { st with temperature := st.temperature * params.cooling_rate, tape := t }

/-- Acceptance test (algorithm.py lines 510, 539, 559): a draw is consumed
only when `score_delta ≤ 0` (Python `or` short-circuits). -/
def acceptTest (params : SAParams) (score_delta temperature : ℚ) (t : Tape) :
    Bool × Tape :=
  if score_delta > 0 then (true, t)
  else
    let (u, t1) := randFloat t
    (decide (u < params.expOracle (score_delta / temperature)), t1)

/-- Common bookkeeping after a generated candidate was accepted or
rejected (algorithm.py lines 565-590): best-snapshot, cooling, reheating,
and the stride-100 progress callback. -/
def saTail (params : SAParams) (iteration : ℕ) (accepted : Bool) (st : SAState) :
    SAState :=
  let st :=
    if accepted then
      if st.current_score > st.best_score then
        { st with
          best_score := st.current_score,
          best_groups := st.groups,
          iterations_since_improvement := 0 }
      else { st with iterations_since_improvement := st.iterations_since_improvement + 1 }
    else { st with iterations_since_improvement := st.iterations_since_improvement + 1 }
  let st := { st with temperature := st.temperature * params.cooling_rate }
  let st :=
    if st.iterations_since_improvement > 500 then
      { st with
        temperature := min (st.temperature * 4) (params.initial_temp * (6 / 10)),
        iterations_since_improvement := 0 }
    else st
  if iteration % 100 == 0 then
    { st with events := st.events ++ [(iteration, st.temperature, st.best_score)] }
  else st

/-- Delta computation, acceptance, and state update for one generated
candidate (the shared shape of the three branch bodies, algorithm.py
lines 501-515, 533-543, 553-563). -/
def saAttempt (params : SAParams) (lookup : ℤ → Option Student)
    (likes_w dislikes_w : ℚ) (iteration : ℕ) (st : SAState) (c : Cand) (t : Tape) :
    SAState :=
  let score_delta := candPeerDelta lookup likes_w dislikes_w st.groups c
    - candPenaltyDelta lookup st.groups c
  let (acc, t1) := acceptTest params score_delta st.temperature t
  if acc then
    saTail params iteration true
      { st with
        groups := applyCand st.groups c,
        current_score := st.current_score + score_delta,
        tape := t1 }
  else saTail params iteration false { st with tape := t1 }

/-- `movable_groups` (algorithm.py lines 491-492 and 519-520):
`enumerate(groups)` is rendered as indexed access over the index range. -/
def movableGroups (groups : List Group) : List (ℕ × List ℤ) :=
  ((List.range groups.length).map
    (fun i => (i, _get_movable (groups.getD i default)))).filter (fun p => !p.2.isEmpty)

/-- Swap-candidate generation (algorithm.py lines 489-499). -/
def genSwap (groups : List Group) (t : Tape) : Option (Cand × Tape) :=
  let mg := movableGroups groups
  if mg.length < 2 then none
  else
    let (pp, t1) := sample2 mg (0, []) t
    let (s1, t2) := randChoice pp.1.2 0 t1
    let (s2, t3) := randChoice pp.2.2 0 t2
    some (Cand.swap pp.1.1 pp.2.1 s1 s2, t3)

/-- Random-move candidate generation (algorithm.py lines 517-531). -/
def genMove (groups : List Group) (t : Tape) : Option (Cand × Tape) :=
  let mg := movableGroups groups
  if mg.isEmpty then none
  else
    let (p, t1) := randChoice mg (0, []) t
    let (sid, t2) := randChoice p.2 0 t1
    let targets := (List.range groups.length).filter (fun j => j ≠ p.1)
    if targets.isEmpty then none
    else
      let (tgt, t3) := randChoice targets 0 t2
      some (Cand.move p.1 tgt sid, t3)

/-- One iteration of the annealing loop body (algorithm.py lines 485-590):
draw the branch selector, generate a candidate, and either cool-and-skip
or run the acceptance bookkeeping. -/
def saIter (params : SAParams) (lookup : ℤ → Option Student)
    (likes_w dislikes_w : ℚ) (iteration : ℕ) (st : SAState) : SAState :=
  let (rand, t0) := randFloat st.tape
  if rand < 45 / 100 then
    match genSwap st.groups t0 with
    | none => coolCont params st t0
    | some (c, t1) => saAttempt params lookup likes_w dislikes_w iteration st c t1
  else if rand < 75 / 100 then
    match genMove st.groups t0 with
    | none => coolCont params st t0
    | some (c, t1) => saAttempt params lookup likes_w dislikes_w iteration st c t1
  else
    match _pick_smart_move st.groups lookup t0 with
    | (none, t1) => coolCont params st t1
    | (some (src, tgt, sid), t1) =>
        saAttempt params lookup likes_w dislikes_w iteration st (Cand.move src tgt sid) t1

/-- The `for iteration in range(max_iterations)` loop with its
`temperature < min_temp` break (algorithm.py lines 481-483). -/
def saLoop (params : SAParams) (lookup : ℤ → Option Student)
    (likes_w dislikes_w : ℚ) : ℕ → ℕ → SAState → SAState
  | 0, _, st => st
  | fuel + 1, iteration, st =>
      if st.temperature < params.min_temp then st
      else
        saLoop params lookup likes_w dislikes_w fuel (iteration + 1)
          (saIter params lookup likes_w dislikes_w iteration st)

/-- `pass1Constraint`: one `ALL` constraint of group `i` during pass 1 of
`initial_assignment` (algorithm.py lines 277-286). -/
def pass1Constraint (i : ℕ) (c : Constraint) (st : List Group × List Student) :
    List Group × List Student :=
  match c.constraint_type with
  | ConstraintType.ALL =>
      let to_add := st.2.filter (fun s => charIsTrue s c.characteristic)
      to_add.foldl (fun st2 student =>
        let g := st2.1.getD i default
        if (g.student_ids.length : ℤ) < g.max_size then
          (updateAt st2.1 i
              (fun g2 => { g2 with student_ids := g2.student_ids ++ [student.id] }),
            st2.2.erase student)
        else st2) st
  | _ => st

/-- `pass2Constraint`: one `SOME` constraint of group `i` during pass 2 of
`initial_assignment` (algorithm.py lines 288-299). -/
def pass2Constraint (lookup : ℤ → Option Student) (i : ℕ) (c : Constraint)
    (st : List Group × List Student) : List Group × List Student :=
  match c.constraint_type with
  | ConstraintType.SOME =>
      let g := st.1.getD i default
      if countCharInList lookup g.student_ids c.characteristic = 0 then
        match st.2.filter (fun s => charIsTrue s c.characteristic) with
        | [] => st
        | chosen :: _ =>
            if (g.student_ids.length : ℤ) < g.max_size then
              (updateAt st.1 i
                  (fun g2 => { g2 with student_ids := g2.student_ids ++ [chosen.id] }),
                st.2.erase chosen)
            else st
      else st
  | _ => st

/-- The `for group in result.groups: for constraint in group.constraints:`
double loop shared by passes 1 and 2 of `initial_assignment`. -/
def passOverGroups
    (f : ℕ → Constraint → (List Group × List Student) → List Group × List Student)
    (st : List Group × List Student) : List Group × List Student :=
  (List.range st.1.length).foldl (fun st2 i =>
    ((st2.1.getD i default).constraints).foldl (fun st3 c => f i c st3) st2) st

/-- The `MAX`-feasibility check of pass 3 of `initial_assignment`
(algorithm.py lines 312-323), with the same Python truthiness on `value`. -/
def pass3CanAdd (lookup : ℤ → Option Student) (g : Group) (student : Student) : Bool :=
  g.constraints.all (fun c =>
    match c.constraint_type, c.value with
    | ConstraintType.MAX, some v =>
        if v ≠ 0 ∧ charIsTrue student c.characteristic then
          decide ((countCharInList lookup g.student_ids c.characteristic : ℤ) < v)
        else true
    | _, _ => true)

/-- Python's `min(range(len(result.groups)), key=...)` fallback of pass 3
(algorithm.py lines 330-334): `none` models the `ValueError` `min` raises
on an empty range, possible only when the project has no groups at all. -/
def pass3Fallback (groups : List Group) : Option ℕ :=
  (List.range groups.length).foldl (fun acc i =>
    match acc with
    | none => some i
    | some j =>
        if (groups.getD i default).student_ids.length
            < (groups.getD j default).student_ids.length then some i
        else acc) none

/-- Pass 3 of `initial_assignment` for one student (algorithm.py lines
304-339), with its sole error path: greedy target choice with strict
improvement (first maximum wins), falling back to the first smallest
group; `none` is the `ValueError` of the fallback's `min` over an empty
group list. -/
def pass3StudentE (lookup : ℤ → Option Student) (groups : List Group)
    (student : Student) : Option (List Group) :=
  let best := (List.range groups.length).foldl (fun acc i =>
    let g := groups.getD i default
    if (g.student_ids.length : ℤ) ≥ g.max_size then acc
    else if !pass3CanAdd lookup g student then acc
    else
      let gids := g.student_ids.toFinset
      let score := ((student.liked.toFinset ∩ gids).card : ℚ)
        - 2 * ((student.disliked.toFinset ∩ gids).card : ℚ)
        - (g.student_ids.length : ℚ) * (1 / 100)
      match acc with
      | none => some (score, i)
      | some pr => if score > pr.1 then some (score, i) else acc) none
  let idx : Option ℕ :=
    match best with
    | some pr => some pr.2
    | none => pass3Fallback groups
  match idx with
  | some i =>
      some (updateAt groups i
        (fun g => { g with student_ids := g.student_ids ++ [student.id] }))
  | none => none

/-- Raise-free projection of `pass3StudentE` driving the totalized
pipeline: on the sole raising input (no groups at all) the student is
left where the raise found it; the raise itself is tracked by
`initial_assignmentE`, which agrees with the totalized
`initial_assignment` on every non-raising input. -/
def pass3Student (lookup : ℤ → Option Student) (groups : List Group)
    (student : Student) : List Group :=
  (pass3StudentE lookup groups student).getD groups

/-- `initial_assignment` (algorithm.py lines 253-341).  `deepcopy` is the
identity in a pure embedding; the lookup is built once from the copied
project (whose `students` never change). -/
def initial_assignment (project : Project) (t : Tape) : Project × Tape :=
  let lookup := _build_lookup project
  let pinned := pinnedStudents project
  let groups0 := project.groups.map (fun g =>
    { g with student_ids :=
        g.student_ids.filter (fun sid => g.pinned_student_ids.contains sid) })
  let unassigned0 := project.students.filter (fun s => decide (s.id ∉ pinned))
  let (unassigned1, t1) := shuffle unassigned0 t
  let st1 := passOverGroups pass1Constraint (groups0, unassigned1)
  let st2 := passOverGroups (pass2Constraint lookup) st1
  let groups3 := st2.2.foldl (pass3Student lookup) st2.1
  ({ project with groups := groups3 }, t1)

/-- The pass-3 fold with the raise propagated: once a student raises,
the whole `initial_assignment` call raises. -/
def pass3FoldE (lookup : ℤ → Option Student) (acc : Option (List Group))
    (s : Student) : Option (List Group) :=
  match acc with
  | none => none
  | some gs => pass3StudentE lookup gs s

/-- `initial_assignment` with its error path: `none` is the `ValueError`
pass 3 raises when a project with no groups has an unassigned student
reach the smallest-group fallback.  On every non-raising input this
agrees with the totalized `initial_assignment`
(`initial_assignmentE_eq`). -/
def initial_assignmentE (project : Project) (t : Tape) : Option (Project × Tape) :=
  let lookup := _build_lookup project
  let pinned := pinnedStudents project
  let groups0 := project.groups.map (fun g =>
    { g with student_ids :=
        g.student_ids.filter (fun sid => g.pinned_student_ids.contains sid) })
  let unassigned0 := project.students.filter (fun s => decide (s.id ∉ pinned))
  let (unassigned1, t1) := shuffle unassigned0 t
  let st1 := passOverGroups pass1Constraint (groups0, unassigned1)
  let st2 := passOverGroups (pass2Constraint lookup) st1
  match st2.2.foldl (pass3FoldE lookup) (some st2.1) with
  | none => none
  | some groups3 => some ({ project with groups := groups3 }, t1)

/-- `simulated_annealing` (algorithm.py lines 424-597), returning the best
snapshot, the emitted progress events, and the final oracle state. -/
def simulated_annealing (project : Project) (params : SAParams)
    (use_current_assignment : Bool) (t : Tape) : Project × List SAEvent × Tape :=
  let (current, t0) :=
    if use_current_assignment then (project, t) else initial_assignment project t
  let lookup := _build_lookup current
  let likes_w := current.weights.likes_weight
  let dislikes_w := current.weights.dislikes_weight
  let score0 := peerScore lookup likes_w dislikes_w current.groups
    - calculate_constraint_penalty current lookup
  let st0 : SAState :=
    { groups := current.groups, current_score := score0, best_score := score0,
      best_groups := current.groups, temperature := params.initial_temp,
      iterations_since_improvement := 0, events := [], tape := t0 }
  let fin := saLoop params lookup likes_w dislikes_w params.max_iterations 0 st0
  ({ current with groups := fin.best_groups }, fin.events, fin.tape)

/-- `simulated_annealing` with its error path: the initializer call is
the only fallible step (every random-primitive call of the loop body is
guarded by the source), so the fallible run factors through the
totalized one, raising exactly when `initial_assignmentE` does. -/
def simulated_annealingE (project : Project) (params : SAParams)
    (use_current_assignment : Bool) (t : Tape) :
    Option (Project × List SAEvent × Tape) :=
  if use_current_assignment then
    some (simulated_annealing project params use_current_assignment t)
  else
    match initial_assignmentE project t with
    | none => none
    | some _ => some (simulated_annealing project params use_current_assignment t)

/-- One progress event of the driver callback:
`(restart * max_iterations + iteration, temperature, best_score, restart + 1)`. -/
abbrev DriverEvent := ℕ × ℚ × ℚ × ℕ

/-- Parameters of `optimize_with_restarts` (algorithm.py lines 604-614);
the `verbose` flag only controls `print` calls, which the embedding does
not model. -/
structure DriverArgs where
  num_restarts : ℕ := 10
  params : SAParams
  return_all_results : Bool := false

/-- Accumulated driver state across restarts. -/
structure DriverState where
  base : Project
  overall_best : Option (ℚ × Project)
  scores : List ℚ
  all_results : List Project
  events : List DriverEvent
  tape : Tape

/-- One restart of `optimize_with_restarts` (algorithm.py lines 624-667):
run SA (restart 0 uses the caller's assignment), recompute the score from
scratch — the inlined rescore at lines 645-654 is exactly
`calculate_total_score` — update the best, and rebase at `num_restarts // 2`. -/
def restartStep (args : DriverArgs) (st : DriverState) (restart : ℕ) : DriverState :=
  let out := simulated_annealing st.base args.params (restart == 0) st.tape
  let result := out.1
  let devs := out.2.1.map (fun e =>
    (restart * args.params.max_iterations + e.1, e.2.1, e.2.2, restart + 1))
  let score := calculate_total_score result
  let ob :=
    match st.overall_best with
    | none => some (score, result)
    | some pr => if score > pr.1 then some (score, result) else some pr
  let base1 :=
    match ob with
    | some pr => if restart == args.num_restarts / 2 then pr.2 else st.base
    | none => st.base
  { base := base1, overall_best := ob, scores := st.scores ++ [score],
    all_results := st.all_results ++ [result], events := st.events ++ devs,
    tape := out.2.2 }

/-- The restart loop of `optimize_with_restarts`. -/
def driverRun (project : Project) (args : DriverArgs) (t : Tape) : DriverState :=
  (List.range args.num_restarts).foldl (restartStep args)
    { base := project, overall_best := none, scores := [], all_results := [],
      events := [], tape := t }

/-- One restart with the raise propagated: an exception escapes
`optimize_with_restarts`, aborting the remaining restarts. -/
def restartStepE (args : DriverArgs) (acc : Option DriverState) (r : ℕ) :
    Option DriverState :=
  match acc with
  | none => none
  | some st =>
      match simulated_annealingE st.base args.params (r == 0) st.tape with
      | none => none
      | some _ => some (restartStep args st r)

/-- The restart loop with its error path: `none` is the `ValueError`
escaping `optimize_with_restarts`; succeeding runs agree with the
totalized `driverRun` (`driverRunE_eq`). -/
def driverRunE (project : Project) (args : DriverArgs) (t : Tape) :
    Option DriverState :=
  (List.range args.num_restarts).foldl (restartStepE args)
    (some {
      base := project, overall_best := none, scores := [], all_results := [],
      events := [], tape := t })

/-- The single-best result (the `return overall_best` path, line 706). -/
def driverSingle (project : Project) (args : DriverArgs) (t : Tape) : Option Project :=
  (driverRun project args t).overall_best.map (fun pr => pr.2)

/-- The `return_all_results` path (lines 702-704): pair each restart's
score with its result, stable-sort descending by score, and strip the
scores. -/
def driverAll (project : Project) (args : DriverArgs) (t : Tape) : List Project :=
  let st := driverRun project args t
  (sortDescBy (fun a b => decide (b.1 ≤ a.1)) (st.scores.zip st.all_results)).map
    (fun pr => pr.2)

/-- The driver's progress event stream. -/
def driverEvents (project : Project) (args : DriverArgs) (t : Tape) : List DriverEvent :=
  (driverRun project args t).events

/-- Return value of `optimize_with_restarts`: Python returns either a
single (optional) Project or a list of Projects. -/
inductive OptimizeResult where
  | single : Option Project → OptimizeResult
  | allOf : List Project → OptimizeResult
deriving DecidableEq, Repr

/-- `optimize_with_restarts` (algorithm.py lines 604-706), paired with the
progress event stream it delivers to the callback. -/
def optimize_with_restarts (project : Project) (args : DriverArgs) (t : Tape) :
    OptimizeResult × List DriverEvent :=
  if args.return_all_results then
    (OptimizeResult.allOf (driverAll project args t), driverEvents project args t)
  else
    (OptimizeResult.single (driverSingle project args t), driverEvents project args t)

/-- Specification-side reading of "the earliest restart attaining the
maximum score": scan from the front, an earlier element wins whenever its
score is at least the best score of the rest. -/
def firstMaxSpec : List Project → Option Project
  | [] => none
  | r :: l =>
      match firstMaxSpec l with
      | none => some r
      | some b =>
          if calculate_total_score r ≥ calculate_total_score b then some r else some b

/-- Proof-side view of the driver's running-best update: fold the
strict-improvement rule over the per-restart results. -/
def bestFold (acc : Option (ℚ × Project)) (l : List Project) : Option (ℚ × Project) :=
  l.foldl (fun acc2 r =>
    match acc2 with
    | none => some (calculate_total_score r, r)
    | some pr =>
        if calculate_total_score r > pr.1 then some (calculate_total_score r, r)
        else some pr) acc

/-- Validity of a Project as listed by the specification's error taxonomy:
no duplicate student ids, every pinned id in its group's member list, and
no id assigned to two groups. -/
@[reducible] def validProject (p : Project) : Prop :=
  (p.students.map (fun s => s.id)).Nodup
    ∧ (∀ g ∈ p.groups, ∀ x ∈ g.pinned_student_ids, x ∈ g.student_ids)
    ∧ p.groups.Pairwise
        (fun g1 g2 => ∀ x, x ∈ g1.student_ids → x ∈ g2.student_ids → False)

/-- JSON-like persisted document (the interchange shape of the spec's
persistence interface): strings, numbers, booleans, null, arrays, and
insertion-ordered string-keyed mappings. -/
inductive Doc where
  | str (s : String)
  | num (q : ℚ)
  | bool (b : Bool)
  | null
  | arr (items : List Doc)
  | obj (fields : List (String × Doc))

/-- Python dict lookup on a document mapping (first matching key). -/
def Doc.lookup (fields : List (String × Doc)) (k : String) : Option Doc :=
  (fields.find? (fun p => p.1 == k)).map (fun p => p.2)

/-- Read a JSON string. -/
def Doc.asStr : Doc → Option String
  | .str s => some s
  | _ => none

/-- Read a JSON integer (a number with denominator 1). -/
def Doc.asInt : Doc → Option ℤ
  | .num q => if q.den = 1 then some q.num else none
  | _ => none

/-- Read a JSON number. -/
def Doc.asRat : Doc → Option ℚ
  | .num q => some q
  | _ => none

/-- Read a JSON boolean. -/
def Doc.asBool : Doc → Option Bool
  | .bool b => some b
  | _ => none

/-- Read a characteristic value (`bool`, number, or null). -/
def Doc.asCharValue : Doc → Option CharValue
  | .bool b => some (CharValue.bool b)
  | .num q => some (CharValue.num q)
  | .null => some CharValue.null
  | _ => none

/-- Parse every element of a list, failing if any element fails (the
`Option`-valued form of the Python list comprehensions in `from_dict`). -/
def parseAll {α β : Type} (parse : α → Option β) : List α → Option (List β)
  | [] => some []
  | x :: xs => do
      let y ← parse x
      let ys ← parseAll parse xs
      some (y :: ys)

/-- Read a list of JSON integers. -/
def Doc.asIntList : Doc → Option (List ℤ)
  | .arr items => parseAll Doc.asInt items
  | _ => none

/-- `data.get(k, default)` followed by a typed read: a missing key yields
the default, a present key of the wrong shape fails. -/
def Doc.getParsed {α : Type} (fields : List (String × Doc)) (k : String)
    (parse : Doc → Option α) (dflt : α) : Option α :=
  match Doc.lookup fields k with
  | none => some dflt
  | some d => parse d

/-- Serialize a characteristic value. -/
def CharValue.toDoc : CharValue → Doc
  | CharValue.bool b => Doc.bool b
  | CharValue.num q => Doc.num q
  | CharValue.null => Doc.null

/-- `Student.to_dict` (models.py lines 47-54). -/
def Student.to_dict (s : Student) : Doc :=
  Doc.obj
    [("id", Doc.num (s.id : ℚ)),
     ("name", Doc.str s.name),
     ("characteristics", Doc.obj (s.characteristics.map (fun p => (p.1, p.2.toDoc)))),
     ("liked", Doc.arr (s.liked.map (fun i : ℤ => Doc.num (i : ℚ)))),
     ("disliked", Doc.arr (s.disliked.map (fun i : ℤ => Doc.num (i : ℚ))))]

/-- `Student.from_dict` (models.py lines 56-64): `id` and `name` are
required keys, the rest default. -/
def Student.from_dict : Doc → Option Student
  | Doc.obj fields => do
      let id ← (Doc.lookup fields "id").bind Doc.asInt
      let name ← (Doc.lookup fields "name").bind Doc.asStr
      let characteristics ← Doc.getParsed fields "characteristics"
        (fun d =>
          match d with
          | Doc.obj kvs => parseAll (fun p => (Doc.asCharValue p.2).map (fun v => (p.1, v))) kvs
          | _ => none) []
      let liked ← Doc.getParsed fields "liked" Doc.asIntList []
      let disliked ← Doc.getParsed fields "disliked" Doc.asIntList []
      some { id := id, name := name, characteristics := characteristics,
             liked := liked, disliked := disliked }
  | _ => none

/-- The `value` attribute of the `ConstraintType` enum (models.py lines 8-12). -/
def ConstraintType.toStr : ConstraintType → String
  | ConstraintType.ALL => "all"
  | ConstraintType.SOME => "some"
  | ConstraintType.MAX => "max"

/-- `ConstraintType(value)`: enum lookup, `ValueError` on anything else. -/
def ConstraintType.ofStr : String → Option ConstraintType
  | "all" => some ConstraintType.ALL
  | "some" => some ConstraintType.SOME
  | "max" => some ConstraintType.MAX
  | _ => none

/-- `Constraint.to_dict` (models.py lines 22-27). -/
def Constraint.to_dict (c : Constraint) : Doc :=
  Doc.obj
    [("characteristic", Doc.str c.characteristic),
     ("constraint_type", Doc.str c.constraint_type.toStr),
     ("value", match c.value with
       | some v => Doc.num (v : ℚ)
       | none => Doc.null)]

/-- `Constraint.from_dict` (models.py lines 29-35): `data.get("value")`
yields `None` both for an absent key and for an explicit null. -/
def Constraint.from_dict : Doc → Option Constraint
  | Doc.obj fields => do
      let characteristic ← (Doc.lookup fields "characteristic").bind Doc.asStr
      let ctStr ← (Doc.lookup fields "constraint_type").bind Doc.asStr
      let constraint_type ← ConstraintType.ofStr ctStr
      let value ←
        match Doc.lookup fields "value" with
        | none => some (none : Option ℤ)
        | some Doc.null => some none
        | some d => (Doc.asInt d).map (fun v => some v)
      some { characteristic := characteristic, constraint_type := constraint_type,
             value := value }
  | _ => none

/-- `Group.to_dict` (models.py lines 76-83). -/
def Group.to_dict (g : Group) : Doc :=
  Doc.obj
    [("name", Doc.str g.name),
     ("max_size", Doc.num (g.max_size : ℚ)),
     ("constraints", Doc.arr (g.constraints.map Constraint.to_dict)),
     ("student_ids", Doc.arr (g.student_ids.map (fun i : ℤ => Doc.num (i : ℚ)))),
     ("pinned_student_ids", Doc.arr (g.pinned_student_ids.map (fun i : ℤ => Doc.num (i : ℚ))))]

/-- `Group.from_dict` (models.py lines 85-93). -/
def Group.from_dict : Doc → Option Group
  | Doc.obj fields => do
      let name ← (Doc.lookup fields "name").bind Doc.asStr
      let max_size ← (Doc.lookup fields "max_size").bind Doc.asInt
      let constraints ← Doc.getParsed fields "constraints"
        (fun d =>
          match d with
          | Doc.arr items => parseAll Constraint.from_dict items
          | _ => none) []
      let student_ids ← Doc.getParsed fields "student_ids" Doc.asIntList []
      let pinned_student_ids ← Doc.getParsed fields "pinned_student_ids" Doc.asIntList []
      some { name := name, max_size := max_size, constraints := constraints,
             student_ids := student_ids, pinned_student_ids := pinned_student_ids }
  | _ => none

/-- `ColumnMapping.to_dict` (models.py lines 108-118). -/
def ColumnMapping.to_dict (cm : ColumnMapping) : Doc :=
  Doc.obj
    [("id_column", Doc.str cm.id_column),
     ("name_column", Doc.str cm.name_column),
     ("firstname_column", Doc.str cm.firstname_column),
     ("lastname_column", Doc.str cm.lastname_column),
     ("use_separate_name_columns", Doc.bool cm.use_separate_name_columns),
     ("liked_column", Doc.str cm.liked_column),
     ("disliked_column", Doc.str cm.disliked_column),
     ("characteristic_columns",
       Doc.obj (cm.characteristic_columns.map (fun p => (p.1, Doc.str p.2))))]

/-- `ColumnMapping.from_dict` (models.py lines 120-131): every key has a
default. -/
def ColumnMapping.from_dict : Doc → Option ColumnMapping
  | Doc.obj fields => do
      let id_column ← Doc.getParsed fields "id_column" Doc.asStr ""
      let name_column ← Doc.getParsed fields "name_column" Doc.asStr ""
      let firstname_column ← Doc.getParsed fields "firstname_column" Doc.asStr ""
      let lastname_column ← Doc.getParsed fields "lastname_column" Doc.asStr ""
      let use_separate_name_columns ←
        Doc.getParsed fields "use_separate_name_columns" Doc.asBool false
      let liked_column ← Doc.getParsed fields "liked_column" Doc.asStr ""
      let disliked_column ← Doc.getParsed fields "disliked_column" Doc.asStr ""
      let characteristic_columns ← Doc.getParsed fields "characteristic_columns"
        (fun d =>
          match d with
          | Doc.obj kvs => parseAll (fun p => (Doc.asStr p.2).map (fun v => (p.1, v))) kvs
          | _ => none) []
      some { id_column := id_column, name_column := name_column,
             firstname_column := firstname_column, lastname_column := lastname_column,
             use_separate_name_columns := use_separate_name_columns,
             liked_column := liked_column, disliked_column := disliked_column,
             characteristic_columns := characteristic_columns }
  | _ => none

/-- `Weights.to_dict` (models.py lines 141-146). -/
def Weights.to_dict (w : Weights) : Doc :=
  Doc.obj
    [("likes_weight", Doc.num w.likes_weight),
     ("dislikes_weight", Doc.num w.dislikes_weight),
     ("characteristic_weights",
       Doc.obj (w.characteristic_weights.map (fun p => (p.1, Doc.num p.2))))]

/-- `Weights.from_dict` (models.py lines 148-154). -/
def Weights.from_dict : Doc → Option Weights
  | Doc.obj fields => do
      let likes_weight ← Doc.getParsed fields "likes_weight" Doc.asRat 1
      let dislikes_weight ← Doc.getParsed fields "dislikes_weight" Doc.asRat 2
      let characteristic_weights ← Doc.getParsed fields "characteristic_weights"
        (fun d =>
          match d with
          | Doc.obj kvs => parseAll (fun p => (Doc.asRat p.2).map (fun v => (p.1, v))) kvs
          | _ => none) []
      some { likes_weight := likes_weight, dislikes_weight := dislikes_weight,
             characteristic_weights := characteristic_weights }
  | _ => none

/-- `Project.to_dict` (models.py lines 166-173). -/
def Project.to_dict (p : Project) : Doc :=
  Doc.obj
    [("excel_path", Doc.str p.excel_path),
     ("column_mapping", p.column_mapping.to_dict),
     ("students", Doc.arr (p.students.map Student.to_dict)),
     ("groups", Doc.arr (p.groups.map Group.to_dict)),
     ("weights", p.weights.to_dict)]

/-- `Project.from_dict` (models.py lines 175-183): every top-level key has
a default (`column_mapping` falls back to parsing the empty mapping). -/
def Project.from_dict : Doc → Option Project
  | Doc.obj fields => do
      let excel_path ← Doc.getParsed fields "excel_path" Doc.asStr ""
      let column_mapping ←
        match Doc.lookup fields "column_mapping" with
        | none => ColumnMapping.from_dict (Doc.obj [])
        | some d => ColumnMapping.from_dict d
      let students ← Doc.getParsed fields "students"
        (fun d =>
          match d with
          | Doc.arr items => parseAll Student.from_dict items
          | _ => none) []
      let groups ← Doc.getParsed fields "groups"
        (fun d =>
          match d with
          | Doc.arr items => parseAll Group.from_dict items
          | _ => none) []
      let weights ←
        match Doc.lookup fields "weights" with
        | none => Weights.from_dict (Doc.obj [])
        | some d => Weights.from_dict d
      some { excel_path := excel_path, column_mapping := column_mapping,
             students := students, groups := groups, weights := weights }
  | _ => none

/-- Total ascending comparison of strings by their character codes (used
only to pick one canonical key order). -/
def natListLex : List ℕ → List ℕ → Bool
  | [], _ => true
  | _ :: _, [] => false
  | a :: as, b :: bs => if a < b then true else if b < a then false else natListLex as bs

/-- Boolean string comparison backing the canonical key order. -/
def strLeB (a b : String) : Bool :=
  natListLex (a.toList.map Char.toNat) (b.toList.map Char.toNat)

/-- Insert one key-value pair into a key-ordered list. -/
def insertKeyed (x : String × Doc) : List (String × Doc) → List (String × Doc)
  | [] => [x]
  | y :: ys => if strLeB x.1 y.1 then x :: y :: ys else y :: insertKeyed x ys

/-- Sort mapping entries into the canonical key order. -/
def sortKeyed : List (String × Doc) → List (String × Doc)
  | [] => []
  | x :: xs => insertKeyed x (sortKeyed xs)

mutual

/-- Canonical form of a document: mappings sorted by key at every level.
Two documents are equal modulo insertion order of mappings iff their
canonical forms are equal. -/
def Doc.normalize : Doc → Doc
  | Doc.str s => Doc.str s
  | Doc.num q => Doc.num q
  | Doc.bool b => Doc.bool b
  | Doc.null => Doc.null
  | Doc.arr items => Doc.arr (normalizeList items)
  | Doc.obj fields => Doc.obj (sortKeyed (normalizePairs fields))

/-- Canonical form of an array body. -/
def normalizeList : List Doc → List Doc
  | [] => []
  | d :: ds => d.normalize :: normalizeList ds

/-- Canonical form of a mapping body (values only; sorting happens in
`Doc.normalize`). -/
def normalizePairs : List (String × Doc) → List (String × Doc)
  | [] => []
  | p :: ps => (p.1, p.2.normalize) :: normalizePairs ps

end

/-- Equality of persisted documents modulo insertion order of mappings. -/
def docEquiv (d1 d2 : Doc) : Prop :=
  d1.normalize = d2.normalize

/-- Structured form of one violation message produced by
`check_hard_constraints` (algorithm.py lines 820-845); the Python code
formats these as strings, which the embedding keeps as data. -/
inductive Violation where
  | sizeV (group : String) (len : ℕ) (maxSize : ℤ)
  | allV (group : String) (char : String) (missing : ℕ)
  | maxV (group : String) (char : String) (inGroup : ℕ) (cap : ℤ)
deriving DecidableEq, Repr

/-- Per-characteristic holder sets used by `check_hard_constraints`
(algorithm.py lines 823-827): built from ALL students, pinned included. -/
def charStudentsAll (project : Project) (c : String) : Finset ℤ :=
  ((project.students.filter (fun s => charIsTrue s c)).map (fun s => s.id)).toFinset

/-- `check_hard_constraints` (algorithm.py lines 820-845). -/
def check_hard_constraints (project : Project) : Bool × List Violation :=
  let violations := project.groups.foldl (fun acc g =>
    let gids := g.student_ids.toFinset
    let sizeViol : List Violation :=
      if (g.student_ids.length : ℤ) > g.max_size then
        [Violation.sizeV g.name g.student_ids.length g.max_size]
      else []
    let consViol := g.constraints.foldl (fun acc2 c =>
      let with_char := charStudentsAll project c.characteristic
      let in_group := with_char ∩ gids
      match c.constraint_type with
      | ConstraintType.ALL =>
          let missing := with_char \ gids
          if missing ≠ ∅ then acc2 ++ [Violation.allV g.name c.characteristic missing.card]
          else acc2
      | ConstraintType.MAX =>
          match c.value with
          | some v =>
              if v ≠ 0 ∧ (in_group.card : ℤ) > v then
                acc2 ++ [Violation.maxV g.name c.characteristic in_group.card v]
              else acc2
          | none => acc2
      | ConstraintType.SOME => acc2) ([] : List Violation)
    acc ++ sizeViol ++ consViol) ([] : List Violation)
  (violations.length == 0, violations)

/-! Concrete instances used by the claim theorems below. -/

/-- A student with boolean characteristic `c` set. -/
def stWithC : Student :=
  { id := 1, name := "a", characteristics := [("c", CharValue.bool true)] }

/-- A second student with characteristic `c` set. -/
def stWithC2 : Student :=
  { id := 2, name := "b", characteristics := [("c", CharValue.bool true)] }

/-- A student with no characteristics. -/
def stPlain : Student :=
  { id := 2, name := "b" }

/-- One group with a `MAX c, 0` cap holding one non-pinned `c`-holder. -/
def projMaxZero : Project :=
  { students := [stWithC],
    groups := [{ name := "A", max_size := 5,
                 constraints := [{ characteristic := "c",
                                   constraint_type := ConstraintType.MAX, value := some 0 }],
                 student_ids := [1] }] }

/-- A `MAX c, 1` group whose cap is met by one non-pinned holder while a
pinned holder also sits in the group. -/
def projPinnedMax : Project :=
  { students := [stWithC, stWithC2],
    groups := [{ name := "A", max_size := 5,
                 constraints := [{ characteristic := "c",
                                   constraint_type := ConstraintType.MAX, value := some 1 }],
                 student_ids := [1, 2], pinned_student_ids := [1] }] }

/-- Before-state for the move counterexample of claim 1: the `c`-holder
sits in the group carrying `ALL c`. -/
def grpAllBefore : Group :=
  { name := "G1", max_size := 2,
    constraints := [{ characteristic := "c", constraint_type := ConstraintType.ALL }],
    student_ids := [1] }

/-- Second group of the claim-1 counterexample. -/
def grpOther : Group :=
  { name := "G2", max_size := 2, student_ids := [2] }

/-- Project before the counterexample move. -/
def projAllBefore : Project :=
  { students := [stWithC, stPlain], groups := [grpAllBefore, grpOther] }

/-- Project after moving student 1 out of the `ALL c` group. -/
def projAllAfter : Project :=
  { students := [stWithC, stPlain],
    groups := [{ name := "G1", max_size := 2,
                 constraints := [{ characteristic := "c",
                                   constraint_type := ConstraintType.ALL }],
                 student_ids := [] },
               { name := "G2", max_size := 2, student_ids := [2, 1] }] }

/-- Two students who like each other, seated in different groups. -/
def stLikes1 : Student :=
  { id := 1, name := "a", liked := [2] }

/-- The mutual partner of `stLikes1`. -/
def stLikes2 : Student :=
  { id := 2, name := "b", liked := [1] }

/-- Two-student, two-group project with one improving move available. -/
def projMutual : Project :=
  { students := [stLikes1, stLikes2],
    groups := [{ name := "A", max_size := 2, student_ids := [1] },
               { name := "B", max_size := 2, student_ids := [2] }] }

/-- One-iteration annealing parameters for the concrete runs (the
cooling rate 1 keeps the temperature at 150 so no break triggers). -/
def exParams : SAParams :=
  { initial_temp := 150, cooling_rate := 1, min_temp := 1 / 100, max_iterations := 1,
    expOracle := fun _ => 0 }

/-- Single-restart driver arguments for the concrete runs. -/
def exArgs : DriverArgs :=
  { num_restarts := 1, params := exParams }

/-- Zero-iteration driver arguments (the annealing loop body never runs). -/
def exArgsZero : DriverArgs :=
  { num_restarts := 1,
    params := { initial_temp := 150, cooling_rate := 1, min_temp := 1 / 100,
                max_iterations := 0, expOracle := fun _ => 0 } }

/-- Two-restart driver arguments for the concrete runs. -/
def exArgsTwo : DriverArgs :=
  { num_restarts := 2, params := exParams }

/-- Single-restart driver arguments with `return_all_results` set. -/
def exArgsAll : DriverArgs :=
  { num_restarts := 1, params := exParams, return_all_results := true }

/-- Oracle tape steering the one iteration into the random-move branch,
moving student 1 into group B. -/
def tapeMoveRight : Tape := { vals := [500000, 0, 0, 0] }

/-- Oracle tape differing in the second draw: student 2 moves into group A. -/
def tapeMoveLeft : Tape := { vals := [500000, 1, 0, 0] }

/-- Same consumed prefix as `tapeMoveRight`, different unread suffix. -/
def tapeMoveRightLong : Tape := { vals := [500000, 0, 0, 0, 77, 88] }

/-- A project whose single assigned student is pinned: the search space is
empty (every candidate generator starves). -/
def projAllPinned : Project :=
  { students := [stWithC],
    groups := [{ name := "A", max_size := 2, student_ids := [1],
                 pinned_student_ids := [1] },
               { name := "B", max_size := 2 }] }

/-- An invalid project: student id 1 appears twice in `students` and is
assigned to two groups. -/
def projInvalid : Project :=
  { students := [stWithC, { id := 1, name := "dup" }],
    groups := [{ name := "A", max_size := 2, student_ids := [1] },
               { name := "B", max_size := 2, student_ids := [1] }] }

/-- The documented minimal interchange document: `students`, `groups`,
and `weights` only. -/
def dMin : Doc :=
  Doc.obj
    [("students", Doc.arr []),
     ("groups", Doc.arr []),
     ("weights", Doc.obj
        [("likes_weight", Doc.num 1),
         ("dislikes_weight", Doc.num 2),
         ("characteristic_weights", Doc.obj [])])]

/-!
## Theorems

`Rat` arithmetic is restored to its default reducibility so that concrete
runs of the embedded algorithm can be evaluated by the kernel.
-/

attribute [local semireducible] Rat.add Rat.sub Rat.mul Rat.inv

/-- An integer serialized as a JSON number reads back unchanged. -/
theorem asInt_intCast (i : ℤ) : Doc.asInt (Doc.num (i : ℚ)) = some i := by
  simp [Doc.asInt]

/-- Parsing a pointwise right inverse over `map` recovers the list. -/
theorem mapM_map_some {α β : Type} (f : α → β) (g : β → Option α)
    (h : ∀ x, g (f x) = some x) : ∀ l : List α, parseAll g (l.map f) = some l
  | [] => rfl
  | x :: xs => by
      simp only [List.map_cons, parseAll, h x, mapM_map_some f g h xs, Option.bind_some]
      rfl

/-- Characteristic values round-trip through their document form. -/
theorem charValue_toDoc_roundtrip (v : CharValue) : Doc.asCharValue v.toDoc = some v := by
  cases v <;> rfl

/-- Integer lists round-trip through their document form. -/
theorem asIntList_map (l : List ℤ) :
    Doc.asIntList (Doc.arr (l.map (fun i : ℤ => Doc.num (i : ℚ)))) = some l := by
  simp [Doc.asIntList, mapM_map_some _ _ asInt_intCast]

/-- `Student.from_dict` is a left inverse of `Student.to_dict`. -/
theorem student_roundtrip (s : Student) : Student.from_dict s.to_dict = some s := by
  simp [Student.to_dict, Student.from_dict, Doc.lookup, Doc.getParsed, Doc.asStr,
    asInt_intCast, asIntList_map,
    mapM_map_some (fun p : String × CharValue => (p.1, p.2.toDoc))
      (fun p => (Doc.asCharValue p.2).map (fun v => (p.1, v)))
      (fun p => by simp [charValue_toDoc_roundtrip])]

/-- The constraint-type enum round-trips through its string value. -/
theorem constraintType_roundtrip (ct : ConstraintType) :
    ConstraintType.ofStr ct.toStr = some ct := by
  cases ct <;> rfl

/-- `Constraint.from_dict` is a left inverse of `Constraint.to_dict`. -/
theorem constraint_roundtrip (c : Constraint) : Constraint.from_dict c.to_dict = some c := by
  cases c with
  | mk ch ct v =>
      cases v <;>
        simp [Constraint.to_dict, Constraint.from_dict, Doc.lookup, Doc.asStr,
          constraintType_roundtrip, asInt_intCast]

/-- `Group.from_dict` is a left inverse of `Group.to_dict`. -/
theorem group_roundtrip (g : Group) : Group.from_dict g.to_dict = some g := by
  simp [Group.to_dict, Group.from_dict, Doc.lookup, Doc.getParsed, Doc.asStr,
    asInt_intCast, asIntList_map, mapM_map_some _ _ constraint_roundtrip]

/-- Reading back a serialized string. -/
theorem asStr_str (s : String) : Doc.asStr (Doc.str s) = some s := rfl

/-- Reading back a serialized boolean. -/
theorem asBool_bool (b : Bool) : Doc.asBool (Doc.bool b) = some b := rfl

/-- Reading back a serialized number. -/
theorem asRat_num (q : ℚ) : Doc.asRat (Doc.num q) = some q := rfl

/-- `ColumnMapping.from_dict` is a left inverse of `ColumnMapping.to_dict`. -/
theorem columnMapping_roundtrip (cm : ColumnMapping) :
    ColumnMapping.from_dict cm.to_dict = some cm := by
  simp [ColumnMapping.to_dict, ColumnMapping.from_dict, Doc.lookup, Doc.getParsed,
    asStr_str, asBool_bool,
    mapM_map_some (fun p : String × String => (p.1, Doc.str p.2))
      (fun p => (Doc.asStr p.2).map (fun v => (p.1, v)))
      (fun p => by simp [asStr_str])]

/-- `Weights.from_dict` is a left inverse of `Weights.to_dict`. -/
theorem weights_roundtrip (w : Weights) : Weights.from_dict w.to_dict = some w := by
  simp [Weights.to_dict, Weights.from_dict, Doc.lookup, Doc.getParsed, asRat_num,
    mapM_map_some (fun p : String × ℚ => (p.1, Doc.num p.2))
      (fun p => (Doc.asRat p.2).map (fun v => (p.1, v)))
      (fun p => by simp [asRat_num])]

/-- C9 (amended): for every persisted document that is the save of some
Project — equivalently, one containing every key `to_dict` emits —
loading and re-saving reproduces the document exactly: `Project.from_dict`
is a left inverse of `Project.to_dict`.  (For documents of the minimal
documented interchange shape, re-saving instead adds the `excel_path` and
`column_mapping` keys with default values; see the counterexample.) -/
theorem claim9_roundtrip (p : Project) : Project.from_dict p.to_dict = some p := by
  simp [Project.to_dict, Project.from_dict, Doc.lookup, Doc.getParsed, asStr_str,
    columnMapping_roundtrip, weights_roundtrip,
    mapM_map_some _ _ student_roundtrip, mapM_map_some _ _ group_roundtrip]

/-- C9 counterexample: the documented interchange shape has only the
`students`, `groups` and `weights` keys; loading such a document and
re-saving emits `excel_path` and `column_mapping` as well, so the result
is not equal to the input even modulo insertion order of mappings. -/
theorem claim9_counterexample :
    Project.from_dict dMin = some ({} : Project)
      ∧ ¬ docEquiv (Project.to_dict {}) dMin := by
  constructor
  · rfl
  · simp +decide [docEquiv, Project.to_dict, ColumnMapping.to_dict, Weights.to_dict,
      Doc.normalize, normalizeList, normalizePairs, sortKeyed, insertKeyed, strLeB,
      natListLex, dMin]

/-- C2 (amended): for a `MAX c, v` constraint with a nonzero cap
`v ≥ 1`, `calculate_constraint_penalty` adds exactly `50 · max 0 (k − v)`
for that constraint, where `k` counts the non-pinned `c`-holders of the
group.  (For `v = 0` the Python truthiness test skips the constraint
entirely; see the counterexample.) -/
theorem claim2_max_penalty (project : Project) (lookup : ℤ → Option Student)
    (pinned : Finset ℤ) (g : Group) (c : Constraint) (v : ℤ)
    (ht : c.constraint_type = ConstraintType.MAX) (hv : c.value = some v)
    (h1 : 1 ≤ v) :
    constraintPenaltyFor project lookup pinned g c
      = 50 * ((max 0 (((charStudents project pinned c.characteristic
          ∩ (g.student_ids.toFinset \ g.pinned_student_ids.toFinset)).card : ℤ) - v) : ℤ) : ℚ) := by
  rcases c with ⟨ch, ct, val⟩
  simp only at ht hv
  subst ht
  subst hv
  simp only [constraintPenaltyFor]
  generalize ((charStudents project pinned ch
    ∩ (g.student_ids.toFinset \ g.pinned_student_ids.toFinset)).card : ℤ) = K
  split
  · rename_i h
    rw [show max 0 (K - v) = K - v by omega]
    push_cast
    ring
  · rename_i h
    have hKv : ¬ K > v := fun hgt => h ⟨by omega, hgt⟩
    rw [show max 0 (K - v) = 0 by omega]
    simp

/-- Witness for C2: a group with two non-pinned `c`-holders and cap 1
yields penalty 50 = 50 · max 0 (2 − 1). -/
theorem claim2_max_penalty_witness :
    constraintPenaltyFor projPinnedMax (_build_lookup projPinnedMax) ∅
        (projPinnedMax.groups.getD 0 default)
        ((projPinnedMax.groups.getD 0 default).constraints.getD 0 default)
      = 50 * ((max 0 (((charStudents projPinnedMax ∅ "c"
          ∩ ((projPinnedMax.groups.getD 0 default).student_ids.toFinset
            \ (projPinnedMax.groups.getD 0 default).pinned_student_ids.toFinset)).card : ℤ)
          - 1) : ℤ) : ℚ) :=
  claim2_max_penalty projPinnedMax (_build_lookup projPinnedMax) ∅
    (projPinnedMax.groups.getD 0 default)
    ((projPinnedMax.groups.getD 0 default).constraints.getD 0 default) 1
    (by decide) (by decide) (by decide)

/-- C2 counterexample: with cap `v = 0` and one non-pinned `c`-holder the
claim predicts a penalty of `50 · max 0 (1 − 0) = 50`, but the code's
truthiness test `if constraint.value and ...` skips the constraint and
the total penalty is 0. -/
theorem claim2_counterexample :
    calculate_constraint_penalty projMaxZero (_build_lookup projMaxZero) = 0
      ∧ (charStudents projMaxZero (pinnedStudents projMaxZero) "c"
          ∩ ((projMaxZero.groups.getD 0 default).student_ids.toFinset
            \ (projMaxZero.groups.getD 0 default).pinned_student_ids.toFinset)).card = 1
      ∧ (projMaxZero.groups.getD 0 default).constraints.getD 0 default
          = { characteristic := "c", constraint_type := ConstraintType.MAX,
              value := some 0 } := by
  refine ⟨by decide, by decide, by decide⟩

/-- C10: `check_hard_constraints` builds its per-characteristic sets from
all students including pinned ones, so on `projPinnedMax` (cap 1 met by
one non-pinned holder, plus a pinned holder) it reports a violation while
`calculate_constraint_penalty` assigns zero penalty. -/
theorem claim10_check_vs_penalty :
    (check_hard_constraints projPinnedMax).1 = false
      ∧ (check_hard_constraints projPinnedMax).2 = [Violation.maxV "A" "c" 2 1]
      ∧ calculate_constraint_penalty projPinnedMax (_build_lookup projPinnedMax) = 0 := by
  refine ⟨by decide, by decide, by decide⟩

/-- C1 counterexample: moving the sole `c`-holder out of a group carrying
`ALL c` is a single-student move whose full rescore drops by the new ALL
penalty of 50, while the incremental update (peer delta minus
`_constraint_penalty_delta_move`, which never inspects ALL constraints)
is 0 — so the maintained score and the full rescore diverge on a *move*,
not only on a swap. -/
theorem claim1_counterexample :
    calculate_total_score projAllAfter
        ≠ calculate_total_score projAllBefore
          + (_student_delta 1 ((grpAllBefore.student_ids.toFinset).erase 1)
              grpOther.student_ids.toFinset (_build_lookup projAllBefore) 1 2
            - _constraint_penalty_delta_move 1 grpAllBefore grpOther
              (_build_lookup projAllBefore))
      ∧ projAllAfter.groups
          = _apply_move projAllBefore.groups 0 1 1 := by
  refine ⟨by decide, by decide⟩

/-- Summing a constant guarded by membership counts the intersection. -/
theorem sum_ite_mem_card (gids A : Finset ℤ) (w : ℚ) :
    (∑ b ∈ gids, if b ∈ A then w else 0) = ((A ∩ gids).card : ℚ) * w := by
  rw [Finset.sum_ite_mem, Finset.sum_const, Finset.inter_comm, nsmul_eq_mul]

/-- Row sums of the pairwise preference weights, for a known student. -/
theorem sum_wPref_eq (lookup : ℤ → Option Student) (likes_w dislikes_w : ℚ)
    {sid : ℤ} {st : Student} (h : lookup sid = some st) (F : Finset ℤ) :
    (∑ b ∈ F, wPref lookup likes_w dislikes_w sid b)
      = ((st.liked.toFinset ∩ F).card : ℚ) * likes_w
        - ((st.disliked.toFinset ∩ F).card : ℚ) * dislikes_w := by
  have : ∀ b ∈ F, wPref lookup likes_w dislikes_w sid b
      = (if b ∈ st.liked.toFinset then likes_w else 0)
        - (if b ∈ st.disliked.toFinset then dislikes_w else 0) := by
    intro b _
    simp [wPref, h, List.mem_toFinset]
  rw [Finset.sum_congr rfl this, Finset.sum_sub_distrib, sum_ite_mem_card, sum_ite_mem_card]

/-- One student row of the peer score is the row sum of `wPref`. -/
theorem rowScore_eq_sum (lookup : ℤ → Option Student) (likes_w dislikes_w : ℚ)
    (gids : Finset ℤ) (sid : ℤ) :
    rowScore lookup likes_w dislikes_w gids sid
      = ∑ b ∈ gids, wPref lookup likes_w dislikes_w sid b := by
  cases h : lookup sid with
  | none =>
      simp only [rowScore, h]
      symm
      exact Finset.sum_eq_zero (fun b _ => by simp [wPref, h])
  | some st =>
      simp only [rowScore, h]
      rw [sum_wPref_eq lookup likes_w dislikes_w h]

/-- A group's peer score is the double sum of `wPref` over its member set
(for duplicate-free member lists). -/
theorem groupPeer_eq_pairSum (lookup : ℤ → Option Student) (likes_w dislikes_w : ℚ)
    (g : Group) (hnd : g.student_ids.Nodup) :
    groupPeer lookup likes_w dislikes_w g
      = pairSum lookup likes_w dislikes_w g.student_ids.toFinset := by
  unfold groupPeer pairSum
  rw [← List.sum_toFinset _ hnd]
  exact Finset.sum_congr rfl (fun x _ =>
    rowScore_eq_sum lookup likes_w dislikes_w g.student_ids.toFinset x)

/-- Inserting a fresh member adds its row, its column, and its diagonal
term to the double sum. -/
theorem pairSum_insert (lookup : ℤ → Option Student) (likes_w dislikes_w : ℚ)
    {x : ℤ} {F : Finset ℤ} (h : x ∉ F) :
    pairSum lookup likes_w dislikes_w (insert x F)
      = pairSum lookup likes_w dislikes_w F
        + (∑ b ∈ F, (wPref lookup likes_w dislikes_w x b
            + wPref lookup likes_w dislikes_w b x))
        + wPref lookup likes_w dislikes_w x x := by
  unfold pairSum
  rw [Finset.sum_insert h, Finset.sum_insert h]
  rw [Finset.sum_congr rfl (fun a (_ : a ∈ F) =>
    Finset.sum_insert (f := fun b => wPref lookup likes_w dislikes_w a b) h)]
  rw [Finset.sum_add_distrib, Finset.sum_add_distrib]
  ring

/-- `_student_delta` is exactly the row-and-column sum difference between
the target and source member sets. -/
theorem student_delta_eq (lookup : ℤ → Option Student) (likes_w dislikes_w : ℚ)
    {sid : ℤ} {st : Student} (h : lookup sid = some st) (old new : Finset ℤ) :
    _student_delta sid old new lookup likes_w dislikes_w
      = (∑ b ∈ new, (wPref lookup likes_w dislikes_w sid b
          + wPref lookup likes_w dislikes_w b sid))
        - ∑ b ∈ old, (wPref lookup likes_w dislikes_w sid b
          + wPref lookup likes_w dislikes_w b sid) := by
  have hOld : (old.sum (fun oid =>
      match lookup oid with
      | none => 0
      | some other =>
          (if sid ∈ other.liked then -likes_w else 0)
            + (if sid ∈ other.disliked then dislikes_w else 0)))
      = -∑ b ∈ old, wPref lookup likes_w dislikes_w b sid := by
    rw [← Finset.sum_neg_distrib]
    refine Finset.sum_congr rfl (fun o _ => ?_)
    cases ho : lookup o with
    | none => simp [wPref, ho]
    | some u =>
        simp only [wPref, ho]
        split <;> split <;> ring
  have hNew : (new.sum (fun nid =>
      match lookup nid with
      | none => 0
      | some other =>
          (if sid ∈ other.liked then likes_w else 0)
            + (if sid ∈ other.disliked then -dislikes_w else 0)))
      = ∑ b ∈ new, wPref lookup likes_w dislikes_w b sid := by
    refine Finset.sum_congr rfl (fun o _ => ?_)
    cases ho : lookup o with
    | none => simp [wPref, ho]
    | some u =>
        simp only [wPref, ho]
        split <;> split <;> ring
  simp only [_student_delta, h]
  rw [hOld, hNew, Finset.sum_add_distrib, Finset.sum_add_distrib,
    sum_wPref_eq lookup likes_w dislikes_w h old,
    sum_wPref_eq lookup likes_w dislikes_w h new]
  ring

/-- `updateAt` preserves the length. -/
theorem updateAt_length {α : Type} (f : α → α) :
    ∀ (l : List α) (i : ℕ), (updateAt l i f).length = l.length
  | [], _ => rfl
  | _ :: _, 0 => rfl
  | _ :: xs, n + 1 => by simp [updateAt, updateAt_length f xs n]

/-- Reading the updated index. -/
theorem getD_updateAt_self {α : Type} (f : α → α) (d : α) :
    ∀ (l : List α) (i : ℕ), i < l.length →
      (updateAt l i f).getD i d = f (l.getD i d)
  | _ :: _, 0, _ => rfl
  | _ :: xs, n + 1, h => by
      simpa [updateAt] using getD_updateAt_self f d xs n (by simpa using h)
  | [], i, h => absurd h (by simp)

/-- Reading an untouched index. -/
theorem getD_updateAt_other {α : Type} (f : α → α) (d : α) :
    ∀ (l : List α) (i j : ℕ), i ≠ j →
      (updateAt l i f).getD j d = l.getD j d
  | [], _, _, _ => by simp [updateAt]
  | _ :: _, 0, 0, h => absurd rfl h
  | _ :: xs, 0, n + 1, _ => rfl
  | _ :: xs, _ + 1, 0, _ => rfl
  | _ :: xs, i + 1, j + 1, h => by
      simpa [updateAt] using getD_updateAt_other f d xs i j (fun e => h (by omega))

/-- How one in-place update changes a mapped sum. -/
theorem map_sum_updateAt {α : Type} (m : α → ℚ) (f : α → α) (d : α) :
    ∀ (l : List α) (i : ℕ), i < l.length →
      ((updateAt l i f).map m).sum = (l.map m).sum + (m (f (l.getD i d)) - m (l.getD i d))
  | x :: xs, 0, _ => by simp [updateAt]; ring
  | x :: xs, n + 1, h => by
      have := map_sum_updateAt m f d xs n (by simpa using h)
      simp only [updateAt, List.map_cons, List.sum_cons, this, List.getD_cons_succ]
      ring
  | [], i, h => absurd h (by simp)

/-- Erasing from a duplicate-free list erases from its finset. -/
theorem toFinset_erase_of_nodup {l : List ℤ} (h : l.Nodup) (a : ℤ) :
    (l.erase a).toFinset = l.toFinset.erase a := by
  ext x
  simp [h.mem_erase_iff, Finset.mem_erase, List.mem_toFinset]

/-- Appending one fresh element inserts into the finset. -/
theorem toFinset_append_singleton (l : List ℤ) (x : ℤ) :
    (l ++ [x]).toFinset = insert x l.toFinset := by
  ext y
  simp [List.mem_toFinset, or_comm]

/-- `List.getD` agrees with indexed access in range. -/
theorem getD_eq_getElem {α : Type} (l : List α) (d : α) {i : ℕ} (h : i < l.length) :
    l.getD i d = l[i] := by
  simp [List.getD_eq_getElem?_getD, List.getElem?_eq_getElem h]

/-- In-range `getD` values are members. -/
theorem getD_mem {α : Type} (l : List α) (d : α) {i : ℕ} (h : i < l.length) :
    l.getD i d ∈ l := by
  rw [getD_eq_getElem l d h]
  exact List.getElem_mem h

/-- Two distinct in-range groups of a pairwise-disjoint list share no
member ids. -/
theorem disjoint_getD {groups : List Group}
    (hdisj : groups.Pairwise
      (fun g1 g2 => ∀ x, x ∈ g1.student_ids → x ∈ g2.student_ids → False))
    {i j : ℕ} (hi : i < groups.length) (hj : j < groups.length) (hij : i ≠ j)
    {x : ℤ} (hxi : x ∈ (groups.getD i default).student_ids)
    (hxj : x ∈ (groups.getD j default).student_ids) : False := by
  rw [getD_eq_getElem _ _ hi] at hxi
  rw [getD_eq_getElem _ _ hj] at hxj
  rcases Nat.lt_or_ge i j with hlt | hge
  · exact List.pairwise_iff_getElem.mp hdisj i j hi hj hlt x hxi hxj
  · have hlt : j < i := by omega
    exact List.pairwise_iff_getElem.mp hdisj j i hj hi hlt x hxj hxi

/-- C1 (amended): for every accepted candidate — swap or single-student
move — generated over valid state (duplicate-free, pairwise-disjoint
member lists, moved students movable and known), the incremental peer
delta the loop adds to `current_score` equals the exact change of the
full peer score, so the peer component of the maintained score stays
exact.  (The constraint-penalty component may diverge for BOTH kinds:
the swap delta omits ALL/SOME, and the move delta omits ALL and counts
pinned students in its MAX counts where the full rescore excludes them —
its SOME counting matches the rescore; see the counterexample.) -/
theorem claim1_peer_exact (lookup : ℤ → Option Student) (likes_w dislikes_w : ℚ)
    (groups : List Group) (c : Cand)
    (hnd : ∀ g ∈ groups, g.student_ids.Nodup)
    (hdisj : groups.Pairwise
      (fun g1 g2 => ∀ x, x ∈ g1.student_ids → x ∈ g2.student_ids → False))
    (hok : CandOk groups c) (hlk : CandLookup lookup c) :
    peerScore lookup likes_w dislikes_w (applyCand groups c)
      = peerScore lookup likes_w dislikes_w groups
        + candPeerDelta lookup likes_w dislikes_w groups c := by
  cases c with
  | move src tgt sid =>
      obtain ⟨hsrc, htgt, hne, hmov⟩ := hok
      obtain ⟨st, hst⟩ := Option.isSome_iff_exists.mp hlk
      have hA : groups.getD src default ∈ groups := getD_mem _ _ hsrc
      have hB : groups.getD tgt default ∈ groups := getD_mem _ _ htgt
      set A := groups.getD src default with hAdef
      set B := groups.getD tgt default with hBdef
      have hndA : A.student_ids.Nodup := hnd A hA
      have hndB : B.student_ids.Nodup := hnd B hB
      have hsidA : sid ∈ A.student_ids := (List.mem_filter.mp hmov).1
      have hsidB : sid ∉ B.student_ids := fun hm =>
        disjoint_getD hdisj hsrc htgt hne hsidA hm
      set gp := groupPeer lookup likes_w dislikes_w with hgp
      set f1 : Group → Group :=
        (fun g => { g with student_ids := g.student_ids.erase sid }) with hf1
      set f2 : Group → Group :=
        (fun g => { g with student_ids := g.student_ids ++ [sid] }) with hf2
      have h1 : ((updateAt groups src f1).map gp).sum
          = (groups.map gp).sum + (gp (f1 A) - gp A) :=
        map_sum_updateAt gp f1 default groups src hsrc
      have hlen2 : tgt < (updateAt groups src f1).length := by
        rw [updateAt_length]; exact htgt
      have hgetB : (updateAt groups src f1).getD tgt default = B :=
        getD_updateAt_other f1 default groups src tgt hne
      have h2 : ((updateAt (updateAt groups src f1) tgt f2).map gp).sum
          = ((updateAt groups src f1).map gp).sum + (gp (f2 B) - gp B) := by
        have := map_sum_updateAt gp f2 default (updateAt groups src f1) tgt hlen2
        rwa [hgetB] at this
      have hgpA : gp A = pairSum lookup likes_w dislikes_w A.student_ids.toFinset :=
        groupPeer_eq_pairSum lookup likes_w dislikes_w A hndA
      have hgpA1 : gp (f1 A)
          = pairSum lookup likes_w dislikes_w (A.student_ids.toFinset.erase sid) := by
        rw [hgp, hf1, groupPeer_eq_pairSum lookup likes_w dislikes_w _ (hndA.erase sid)]
        congr 1
        exact toFinset_erase_of_nodup hndA sid
      have hgpB : gp B = pairSum lookup likes_w dislikes_w B.student_ids.toFinset :=
        groupPeer_eq_pairSum lookup likes_w dislikes_w B hndB
      have hndB2 : (B.student_ids ++ [sid]).Nodup := by
        simp [List.nodup_append, hndB, hsidB]
      have hgpB2 : gp (f2 B)
          = pairSum lookup likes_w dislikes_w (insert sid B.student_ids.toFinset) := by
        rw [hgp, hf2, groupPeer_eq_pairSum lookup likes_w dislikes_w _ hndB2]
        congr 1
        exact toFinset_append_singleton _ _
      have hsidF : sid ∈ A.student_ids.toFinset := List.mem_toFinset.mpr hsidA
      have hAexp : pairSum lookup likes_w dislikes_w A.student_ids.toFinset
          = pairSum lookup likes_w dislikes_w (A.student_ids.toFinset.erase sid)
            + (∑ b ∈ A.student_ids.toFinset.erase sid,
                (wPref lookup likes_w dislikes_w sid b
                  + wPref lookup likes_w dislikes_w b sid))
            + wPref lookup likes_w dislikes_w sid sid := by
        rw [← Finset.insert_erase hsidF]
        rw [pairSum_insert lookup likes_w dislikes_w (Finset.not_mem_erase sid _)]
        rw [Finset.insert_erase hsidF]
      have hBexp : pairSum lookup likes_w dislikes_w (insert sid B.student_ids.toFinset)
          = pairSum lookup likes_w dislikes_w B.student_ids.toFinset
            + (∑ b ∈ B.student_ids.toFinset,
                (wPref lookup likes_w dislikes_w sid b
                  + wPref lookup likes_w dislikes_w b sid))
            + wPref lookup likes_w dislikes_w sid sid :=
        pairSum_insert lookup likes_w dislikes_w
          (fun hm => hsidB (List.mem_toFinset.mp hm))
      have hdelta : candPeerDelta lookup likes_w dislikes_w groups (Cand.move src tgt sid)
          = (∑ b ∈ B.student_ids.toFinset,
              (wPref lookup likes_w dislikes_w sid b
                + wPref lookup likes_w dislikes_w b sid))
            - ∑ b ∈ A.student_ids.toFinset.erase sid,
              (wPref lookup likes_w dislikes_w sid b
                + wPref lookup likes_w dislikes_w b sid) := by
        simp only [candPeerDelta, ← hAdef, ← hBdef]
        exact student_delta_eq lookup likes_w dislikes_w hst _ _
      show ((updateAt (updateAt groups src f1) tgt f2).map gp).sum
        = (groups.map gp).sum + _
      rw [h2, h1, hgpA, hgpA1, hgpB, hgpB2, hdelta, hAexp, hBexp]
      ring
  | swap gi1 gi2 s1 s2 =>
      obtain ⟨hi1, hi2, hne, hm1, hm2⟩ := hok
      obtain ⟨hlk1, hlk2⟩ := hlk
      obtain ⟨st1, hst1⟩ := Option.isSome_iff_exists.mp hlk1
      obtain ⟨st2, hst2⟩ := Option.isSome_iff_exists.mp hlk2
      have hA : groups.getD gi1 default ∈ groups := getD_mem _ _ hi1
      have hB : groups.getD gi2 default ∈ groups := getD_mem _ _ hi2
      set A := groups.getD gi1 default with hAdef
      set B := groups.getD gi2 default with hBdef
      have hndA : A.student_ids.Nodup := hnd A hA
      have hndB : B.student_ids.Nodup := hnd B hB
      have hs1A : s1 ∈ A.student_ids := (List.mem_filter.mp hm1).1
      have hs2B : s2 ∈ B.student_ids := (List.mem_filter.mp hm2).1
      have hs1B : s1 ∉ B.student_ids := fun hm =>
        disjoint_getD hdisj hi1 hi2 hne hs1A hm
      have hs2A : s2 ∉ A.student_ids := fun hm =>
        disjoint_getD hdisj hi2 hi1 (fun e => hne e.symm) hs2B hm
      set gp := groupPeer lookup likes_w dislikes_w with hgp
      set e1 : Group → Group :=
        (fun g => { g with student_ids := g.student_ids.erase s1 }) with he1
      set e2 : Group → Group :=
        (fun g => { g with student_ids := g.student_ids.erase s2 }) with he2
      set a2 : Group → Group :=
        (fun g => { g with student_ids := g.student_ids ++ [s2] }) with ha2
      set a1 : Group → Group :=
        (fun g => { g with student_ids := g.student_ids ++ [s1] }) with ha1
      set u1 := updateAt groups gi1 e1 with hu1
      set u2 := updateAt u1 gi2 e2 with hu2
      set u3 := updateAt u2 gi1 a2 with hu3
      set u4 := updateAt u3 gi2 a1 with hu4
      have hlen1 : u1.length = groups.length := updateAt_length e1 groups gi1
      have hlen2 : u2.length = groups.length := by
        rw [hu2, updateAt_length, hlen1]
      have hlen3 : u3.length = groups.length := by
        rw [hu3, updateAt_length, hlen2]
      have hg12 : u1.getD gi2 default = B :=
        getD_updateAt_other e1 default groups gi1 gi2 hne
      have hg21 : u2.getD gi1 default = e1 A := by
        rw [hu2, getD_updateAt_other e2 default u1 gi2 gi1 (fun e => hne e.symm), hu1,
          getD_updateAt_self e1 default groups gi1 hi1]
      have hg32 : u3.getD gi2 default = e2 B := by
        rw [hu3, getD_updateAt_other a2 default u2 gi1 gi2 hne, hu2,
          getD_updateAt_self e2 default u1 gi2 (by rw [hlen1]; exact hi2), hg12]
      have h1 : (u1.map gp).sum = (groups.map gp).sum + (gp (e1 A) - gp A) :=
        map_sum_updateAt gp e1 default groups gi1 hi1
      have h2 : (u2.map gp).sum = (u1.map gp).sum + (gp (e2 B) - gp B) := by
        have := map_sum_updateAt gp e2 default u1 gi2 (by rw [hlen1]; exact hi2)
        rwa [hg12] at this
      have h3 : (u3.map gp).sum = (u2.map gp).sum + (gp (a2 (e1 A)) - gp (e1 A)) := by
        have := map_sum_updateAt gp a2 default u2 gi1 (by rw [hlen2]; exact hi1)
        rwa [hg21] at this
      have h4 : (u4.map gp).sum = (u3.map gp).sum + (gp (a1 (e2 B)) - gp (e2 B)) := by
        have := map_sum_updateAt gp a1 default u3 gi2 (by rw [hlen3]; exact hi2)
        rwa [hg32] at this
      have hndA1 : (A.student_ids.erase s1).Nodup := hndA.erase s1
      have hndB1 : (B.student_ids.erase s2).Nodup := hndB.erase s2
      have hgpA : gp A = pairSum lookup likes_w dislikes_w A.student_ids.toFinset :=
        groupPeer_eq_pairSum lookup likes_w dislikes_w A hndA
      have hgpB : gp B = pairSum lookup likes_w dislikes_w B.student_ids.toFinset :=
        groupPeer_eq_pairSum lookup likes_w dislikes_w B hndB
      have hs2A1 : s2 ∉ A.student_ids.erase s1 := fun hm =>
        hs2A (List.mem_of_mem_erase hm)
      have hs1B1 : s1 ∉ B.student_ids.erase s2 := fun hm =>
        hs1B (List.mem_of_mem_erase hm)
      have hgpA2 : gp (a2 (e1 A))
          = pairSum lookup likes_w dislikes_w
              (insert s2 (A.student_ids.toFinset.erase s1)) := by
        rw [hgp, ha2, he1,
          groupPeer_eq_pairSum lookup likes_w dislikes_w _
            (by simp [List.nodup_append, hndA1, hs2A1])]
        congr 1
        rw [toFinset_append_singleton, toFinset_erase_of_nodup hndA]
      have hgpB2 : gp (a1 (e2 B))
          = pairSum lookup likes_w dislikes_w
              (insert s1 (B.student_ids.toFinset.erase s2)) := by
        rw [hgp, ha1, he2,
          groupPeer_eq_pairSum lookup likes_w dislikes_w _
            (by simp [List.nodup_append, hndB1, hs1B1])]
        congr 1
        rw [toFinset_append_singleton, toFinset_erase_of_nodup hndB]
      have hgpE1 : gp (e1 A)
          = pairSum lookup likes_w dislikes_w (A.student_ids.toFinset.erase s1) := by
        rw [hgp, he1, groupPeer_eq_pairSum lookup likes_w dislikes_w _ hndA1]
        congr 1
        exact toFinset_erase_of_nodup hndA s1
      have hgpE2 : gp (e2 B)
          = pairSum lookup likes_w dislikes_w (B.student_ids.toFinset.erase s2) := by
        rw [hgp, he2, groupPeer_eq_pairSum lookup likes_w dislikes_w _ hndB1]
        congr 1
        exact toFinset_erase_of_nodup hndB s2
      have hs1F : s1 ∈ A.student_ids.toFinset := List.mem_toFinset.mpr hs1A
      have hs2F : s2 ∈ B.student_ids.toFinset := List.mem_toFinset.mpr hs2B
      have hAexp : pairSum lookup likes_w dislikes_w A.student_ids.toFinset
          = pairSum lookup likes_w dislikes_w (A.student_ids.toFinset.erase s1)
            + (∑ b ∈ A.student_ids.toFinset.erase s1,
                (wPref lookup likes_w dislikes_w s1 b
                  + wPref lookup likes_w dislikes_w b s1))
            + wPref lookup likes_w dislikes_w s1 s1 := by
        rw [← Finset.insert_erase hs1F]
        rw [pairSum_insert lookup likes_w dislikes_w (Finset.not_mem_erase s1 _)]
        rw [Finset.insert_erase hs1F]
      have hBexp : pairSum lookup likes_w dislikes_w B.student_ids.toFinset
          = pairSum lookup likes_w dislikes_w (B.student_ids.toFinset.erase s2)
            + (∑ b ∈ B.student_ids.toFinset.erase s2,
                (wPref lookup likes_w dislikes_w s2 b
                  + wPref lookup likes_w dislikes_w b s2))
            + wPref lookup likes_w dislikes_w s2 s2 := by
        rw [← Finset.insert_erase hs2F]
        rw [pairSum_insert lookup likes_w dislikes_w (Finset.not_mem_erase s2 _)]
        rw [Finset.insert_erase hs2F]
      have hA2exp : pairSum lookup likes_w dislikes_w
            (insert s2 (A.student_ids.toFinset.erase s1))
          = pairSum lookup likes_w dislikes_w (A.student_ids.toFinset.erase s1)
            + (∑ b ∈ A.student_ids.toFinset.erase s1,
                (wPref lookup likes_w dislikes_w s2 b
                  + wPref lookup likes_w dislikes_w b s2))
            + wPref lookup likes_w dislikes_w s2 s2 :=
        pairSum_insert lookup likes_w dislikes_w
          (fun hm => hs2A1 ((toFinset_erase_of_nodup hndA s1) ▸ hm |> List.mem_toFinset.mp))
      have hB2exp : pairSum lookup likes_w dislikes_w
            (insert s1 (B.student_ids.toFinset.erase s2))
          = pairSum lookup likes_w dislikes_w (B.student_ids.toFinset.erase s2)
            + (∑ b ∈ B.student_ids.toFinset.erase s2,
                (wPref lookup likes_w dislikes_w s1 b
                  + wPref lookup likes_w dislikes_w b s1))
            + wPref lookup likes_w dislikes_w s1 s1 :=
        pairSum_insert lookup likes_w dislikes_w
          (fun hm => hs1B1 ((toFinset_erase_of_nodup hndB s2) ▸ hm |> List.mem_toFinset.mp))
      have hdelta : candPeerDelta lookup likes_w dislikes_w groups (Cand.swap gi1 gi2 s1 s2)
          = ((∑ b ∈ B.student_ids.toFinset.erase s2,
              (wPref lookup likes_w dislikes_w s1 b
                + wPref lookup likes_w dislikes_w b s1))
            - ∑ b ∈ A.student_ids.toFinset.erase s1,
              (wPref lookup likes_w dislikes_w s1 b
                + wPref lookup likes_w dislikes_w b s1))
            + ((∑ b ∈ A.student_ids.toFinset.erase s1,
                (wPref lookup likes_w dislikes_w s2 b
                  + wPref lookup likes_w dislikes_w b s2))
              - ∑ b ∈ B.student_ids.toFinset.erase s2,
                (wPref lookup likes_w dislikes_w s2 b
                  + wPref lookup likes_w dislikes_w b s2)) := by
        simp only [candPeerDelta, ← hAdef, ← hBdef]
        rw [student_delta_eq lookup likes_w dislikes_w hst1,
          student_delta_eq lookup likes_w dislikes_w hst2]
      show (u4.map gp).sum = (groups.map gp).sum + _
      rw [h4, h3, h2, h1, hgpA, hgpB, hgpA2, hgpB2, hgpE1, hgpE2, hdelta, hAexp, hBexp,
        hA2exp, hB2exp]
      ring

/-- Witness for C1: the exactness equation instantiated on the concrete
two-student project, moving student 1 into group B. -/
theorem claim1_peer_exact_witness :
    peerScore (_build_lookup projMutual) 1 2
        (applyCand projMutual.groups (Cand.move 0 1 1))
      = peerScore (_build_lookup projMutual) 1 2 projMutual.groups
        + candPeerDelta (_build_lookup projMutual) 1 2 projMutual.groups
            (Cand.move 0 1 1) :=
  claim1_peer_exact (_build_lookup projMutual) 1 2 projMutual.groups (Cand.move 0 1 1)
    (by decide)
    (by
      constructor
      · intro g hg x hx1 hx2
        simp [projMutual] at hg
        subst hg
        simp [projMutual, stLikes1, stLikes2] at hx1 hx2
        omega
      · constructor
        · intro g hg
          simp [projMutual] at hg
        · constructor)
    (by decide) (by decide)

/-- A predicate preserved by each step survives a left fold. -/
theorem foldl_preserve {α β : Type} (P : β → Prop) (f : β → α → β)
    (h : ∀ s x, P s → P (f s x)) :
    ∀ (l : List α) (init : β), P init → P (l.foldl f init)
  | [], _, hi => hi
  | x :: xs, init, hi => foldl_preserve P f h xs (f init x) (h init x hi)

/-- Membership in a stable descending insertion. -/
theorem mem_insertDescBy {α : Type} (ge : α → α → Bool) (x : α) :
    ∀ (l : List α) (z : α), z ∈ insertDescBy ge x l ↔ z = x ∨ z ∈ l
  | [], z => by simp [insertDescBy]
  | y :: ys, z => by
      simp only [insertDescBy]
      split
      · simp [List.mem_cons]
        try tauto
      · simp [List.mem_cons, mem_insertDescBy ge x ys z]
        try tauto

/-- Stable descending insertion permutes the cons. -/
theorem insertDescBy_perm {α : Type} (ge : α → α → Bool) (x : α) :
    ∀ l : List α, (insertDescBy ge x l).Perm (x :: l)
  | [] => List.Perm.refl _
  | y :: ys => by
      simp only [insertDescBy]
      split
      · exact List.Perm.refl _
      · exact ((insertDescBy_perm ge x ys).cons y).trans (List.Perm.swap x y ys)

/-- The stable descending sort is a permutation. -/
theorem sortDescBy_perm {α : Type} (ge : α → α → Bool) :
    ∀ l : List α, (sortDescBy ge l).Perm l
  | [] => List.Perm.refl _
  | x :: xs =>
      (insertDescBy_perm ge x (sortDescBy ge xs)).trans ((sortDescBy_perm ge xs).cons x)

/-- Insertion keeps a key-descending list key-descending. -/
theorem pairwise_insertDescBy {α : Type} (k : α → ℚ) (x : α) :
    ∀ l : List α, List.Pairwise (fun a b => k b ≤ k a) l →
      List.Pairwise (fun a b => k b ≤ k a)
        (insertDescBy (fun a b => decide (k b ≤ k a)) x l)
  | [], _ => List.pairwise_singleton _ _
  | y :: ys, h => by
      simp only [insertDescBy]
      split
      · rename_i hge
        have hxy : k y ≤ k x := of_decide_eq_true hge
        exact List.Pairwise.cons
          (fun z hz => by
            rcases List.mem_cons.mp hz with rfl | hz2
            · exact hxy
            · exact le_trans (List.rel_of_pairwise_cons h hz2) hxy)
          h
      · rename_i hge
        have hxy : k x ≤ k y := le_of_not_le (fun hc => hge (decide_eq_true hc))
        exact List.Pairwise.cons
          (fun z hz => by
            rcases (mem_insertDescBy _ x ys z).mp hz with rfl | hz2
            · exact hxy
            · exact List.rel_of_pairwise_cons h hz2)
          (pairwise_insertDescBy k x ys h.of_cons)

/-- The stable descending sort is key-descending. -/
theorem sortDescBy_pairwise {α : Type} (k : α → ℚ) :
    ∀ l : List α,
      List.Pairwise (fun a b => k b ≤ k a)
        (sortDescBy (fun a b => decide (k b ≤ k a)) l)
  | [] => List.Pairwise.nil
  | x :: xs => pairwise_insertDescBy k x _ (sortDescBy_pairwise k xs)

/-- Insertion is stable: elements of any fixed key keep their order. -/
theorem filter_insertDescBy {α : Type} (k : α → ℚ) (v : ℚ) (x : α) :
    ∀ l : List α,
      (insertDescBy (fun a b => decide (k b ≤ k a)) x l).filter
          (fun a => decide (k a = v))
        = if k x = v then x :: l.filter (fun a => decide (k a = v))
          else l.filter (fun a => decide (k a = v))
  | [] => by
      simp only [insertDescBy, List.filter]
      by_cases h : k x = v <;> simp [h]
  | y :: ys => by
      simp only [insertDescBy]
      split
      · rw [List.filter_cons]
        by_cases h : k x = v <;> simp [h]
      · rename_i hge
        have hlt : k x < k y := lt_of_not_le (fun hc => hge (decide_eq_true hc))
        rw [List.filter_cons, List.filter_cons, filter_insertDescBy k v x ys]
        by_cases hx : k x = v
        · have hy : ¬ (k y = v) := by
            intro e
            rw [hx, ← e] at hlt
            exact lt_irrefl _ hlt
          simp [hx, hy]
        · by_cases hy : k y = v <;> simp [hx, hy]

/-- The stable descending sort preserves the order of equal-key elements. -/
theorem sortDescBy_filter {α : Type} (k : α → ℚ) (v : ℚ) :
    ∀ l : List α,
      (sortDescBy (fun a b => decide (k b ≤ k a)) l).filter (fun a => decide (k a = v))
        = l.filter (fun a => decide (k a = v))
  | [] => rfl
  | x :: xs => by
      rw [sortDescBy, filter_insertDescBy, sortDescBy_filter k v xs, List.filter_cons]
      by_cases h : k x = v <;> simp [h]

/-- Zipping a mapped list with its source pairs each element with its image. -/
theorem zip_map_self {α β : Type} (f : α → β) :
    ∀ l : List α, (l.map f).zip l = l.map (fun x => (f x, x))
  | [] => rfl
  | x :: xs => by simp [zip_map_self f xs]

/-- Driver fold invariant: the stored scores are the full rescores of the
stored results, and the running best is the strict-improvement fold. -/
theorem driverRun_invariant (project : Project) (args : DriverArgs) (t : Tape) :
    (driverRun project args t).scores
        = (driverRun project args t).all_results.map calculate_total_score
      ∧ (driverRun project args t).overall_best
        = bestFold none (driverRun project args t).all_results := by
  unfold driverRun
  refine foldl_preserve
    (fun st => st.scores = st.all_results.map calculate_total_score
      ∧ st.overall_best = bestFold none st.all_results)
    (restartStep args) ?_ (List.range args.num_restarts)
    { base := project, overall_best := none, scores := [], all_results := [],
      events := [], tape := t } ⟨rfl, rfl⟩
  rintro st r ⟨h1, h2⟩
  refine ⟨?_, ?_⟩
  · show st.scores
        ++ [calculate_total_score (simulated_annealing st.base args.params (r == 0) st.tape).1]
      = (st.all_results
        ++ [(simulated_annealing st.base args.params (r == 0) st.tape).1]).map
          calculate_total_score
    rw [List.map_append, h1]
    rfl
  · show (match st.overall_best with
      | none => some (calculate_total_score
          (simulated_annealing st.base args.params (r == 0) st.tape).1,
          (simulated_annealing st.base args.params (r == 0) st.tape).1)
      | some pr => if calculate_total_score
            (simulated_annealing st.base args.params (r == 0) st.tape).1 > pr.1
          then some (calculate_total_score
            (simulated_annealing st.base args.params (r == 0) st.tape).1,
            (simulated_annealing st.base args.params (r == 0) st.tape).1)
          else some pr)
      = bestFold none (st.all_results
          ++ [(simulated_annealing st.base args.params (r == 0) st.tape).1])
    rw [h2]
    unfold bestFold
    rw [List.foldl_append]
    rfl

/-- Folding the strict-improvement rule from a seeded accumulator agrees
with the earliest-maximum scan of the rest. -/
theorem bestFold_acc :
    ∀ (l : List Project) (b : Project),
      bestFold (some (calculate_total_score b, b)) l
        = match firstMaxSpec l with
          | none => some (calculate_total_score b, b)
          | some m =>
              if calculate_total_score m > calculate_total_score b
              then some (calculate_total_score m, m)
              else some (calculate_total_score b, b)
  | [], b => rfl
  | x :: xs, b => by
      have hstep : bestFold (some (calculate_total_score b, b)) (x :: xs)
          = bestFold (if calculate_total_score x > calculate_total_score b
              then some (calculate_total_score x, x)
              else some (calculate_total_score b, b)) xs := rfl
      rw [hstep]
      by_cases hxb : calculate_total_score x > calculate_total_score b
      · rw [if_pos hxb, bestFold_acc xs x]
        cases hfm : firstMaxSpec xs with
        | none => simp [firstMaxSpec, hfm, hxb]
        | some m =>
            simp only [firstMaxSpec, hfm]
            by_cases h1 : calculate_total_score m > calculate_total_score x
            · have h2 : ¬ calculate_total_score x ≥ calculate_total_score m := by linarith
              have h3 : calculate_total_score m > calculate_total_score b := by linarith
              simp [h1, h2, h3]
            · have h2 : calculate_total_score x ≥ calculate_total_score m := by linarith
              simp [h1, h2, hxb]
      · rw [if_neg hxb, bestFold_acc xs b]
        cases hfm : firstMaxSpec xs with
        | none => simp [firstMaxSpec, hfm, hxb]
        | some m =>
            simp only [firstMaxSpec, hfm]
            by_cases h1 : calculate_total_score m > calculate_total_score b
            · have h2 : ¬ calculate_total_score x ≥ calculate_total_score m := by linarith
              simp [h1, h2]
            · by_cases h3 : calculate_total_score x ≥ calculate_total_score m
              · have h4 : ¬ calculate_total_score x > calculate_total_score b := hxb
                simp [h1, h3, h4]
              · simp [h1, h3]

/-- The driver's running best is the earliest restart attaining the
maximum full rescore. -/
theorem bestFold_eq_firstMax :
    ∀ l : List Project,
      bestFold none l
        = match firstMaxSpec l with
          | none => none
          | some m => some (calculate_total_score m, m)
  | [] => rfl
  | x :: xs => by
      have hstep : bestFold none (x :: xs)
          = bestFold (some (calculate_total_score x, x)) xs := rfl
      rw [hstep, bestFold_acc xs x]
      cases hfm : firstMaxSpec xs with
      | none => simp [firstMaxSpec, hfm]
      | some m =>
          simp only [firstMaxSpec, hfm]
          by_cases h1 : calculate_total_score m > calculate_total_score x
          · have h2 : ¬ calculate_total_score x ≥ calculate_total_score m := by linarith
            simp [h1, h2]
          · have h2 : calculate_total_score x ≥ calculate_total_score m := by linarith
            simp [h1, h2]

/-- The `return_all_results` list is the stable descending sort of the
per-restart results paired with their full rescores. -/
theorem driverAll_eq (project : Project) (args : DriverArgs) (t : Tape) :
    driverAll project args t
      = (sortDescBy (fun a b => decide (b.1 ≤ a.1))
          ((driverRun project args t).all_results.map
            (fun r => (calculate_total_score r, r)))).map (fun pr => pr.2) := by
  obtain ⟨hs, _⟩ := driverRun_invariant project args t
  simp only [driverAll]
  rw [hs, zip_map_self]

/-- Every pair in the sorted pair list carries the rescore of its project. -/
theorem sorted_pairs_fst (project : Project) (args : DriverArgs) (t : Tape) :
    ∀ pr ∈ sortDescBy (fun a b => decide (b.1 ≤ a.1))
        ((driverRun project args t).all_results.map
          (fun r => (calculate_total_score r, r))),
      pr.1 = calculate_total_score pr.2 := by
  intro pr hpr
  have hmem : pr ∈ (driverRun project args t).all_results.map
      (fun r => (calculate_total_score r, r)) :=
    (sortDescBy_perm _ _).mem_iff.mp hpr
  obtain ⟨r, _, rfl⟩ := List.mem_map.mp hmem
  rfl

/-- C7 (amended): under `return_all_results` the driver returns the
per-restart results as BARE Projects with the scores stripped — not the
(score, Project) pairs the claim asserts; see the counterexample — and
that stripped list is ordered by full rescore, descending, and is a
permutation of the per-restart results.  (The scores used for ordering
are recomputed here from each returned Project; the internal pairs
carry exactly that rescore.) -/
theorem claim7_sorted_results (project : Project) (args : DriverArgs) (t : Tape) :
    List.Pairwise (fun a b => calculate_total_score b ≤ calculate_total_score a)
        (driverAll project args t)
      ∧ (driverAll project args t).Perm (driverRun project args t).all_results := by
  constructor
  · rw [driverAll_eq, List.pairwise_map]
    refine (sortDescBy_pairwise (fun pr : ℚ × Project => pr.1) _).imp_of_mem ?_
    intro a b ha hb h
    rw [← sorted_pairs_fst project args t a ha, ← sorted_pairs_fst project args t b hb]
    exact h
  · rw [driverAll_eq]
    refine ((sortDescBy_perm _ _).map _).trans ?_
    rw [List.map_map]
    have hco : ((fun pr : ℚ × Project => pr.2) ∘ (fun r => (calculate_total_score r, r)))
        = fun r : Project => r := rfl
    rw [hco, List.map_id']

/-- C8: equal-score results keep their restart order in the sorted list
(stability, expressed per score value), and the single-best result is the
earliest restart attaining the maximum rescore. -/
theorem claim8_tie_break (project : Project) (args : DriverArgs) (t : Tape) :
    (∀ v : ℚ,
      (driverAll project args t).filter (fun r => decide (calculate_total_score r = v))
        = (driverRun project args t).all_results.filter
            (fun r => decide (calculate_total_score r = v)))
      ∧ driverSingle project args t
        = firstMaxSpec (driverRun project args t).all_results := by
  constructor
  · intro v
    rw [driverAll_eq, List.filter_map]
    have hpred : ∀ pr ∈ sortDescBy (fun a b => decide (b.1 ≤ a.1))
        ((driverRun project args t).all_results.map
          (fun r => (calculate_total_score r, r))),
        ((fun r => decide (calculate_total_score r = v)) ∘ (fun pr : ℚ × Project => pr.2)) pr
          = (fun pr : ℚ × Project => decide (pr.1 = v)) pr := by
      intro pr hpr
      simp only [Function.comp]
      rw [sorted_pairs_fst project args t pr hpr]
    rw [List.filter_congr hpred]
    rw [sortDescBy_filter (fun pr : ℚ × Project => pr.1) v]
    have hpred2 : ∀ pr ∈ (driverRun project args t).all_results.map
        (fun r => (calculate_total_score r, r)),
        (fun pr : ℚ × Project => decide (pr.1 = v)) pr
          = ((fun r => decide (calculate_total_score r = v))
              ∘ (fun pr : ℚ × Project => pr.2)) pr := by
      intro pr hpr
      obtain ⟨r, _, rfl⟩ := List.mem_map.mp hpr
      rfl
    rw [List.filter_congr hpred2, ← List.filter_map, List.map_map]
    have hco : ((fun pr : ℚ × Project => pr.2) ∘ (fun r => (calculate_total_score r, r)))
        = fun r : Project => r := rfl
    rw [hco, List.map_id']
  · obtain ⟨_, hb⟩ := driverRun_invariant project args t
    show ((driverRun project args t).overall_best).map (fun pr => pr.2) = _
    rw [hb, bestFold_eq_firstMax]
    cases firstMaxSpec (driverRun project args t).all_results <;> rfl

/-- Out-of-range updates are the identity. -/
theorem updateAt_out {α : Type} (f : α → α) :
    ∀ (l : List α) (i : ℕ), l.length ≤ i → updateAt l i f = l
  | [], _, _ => rfl
  | x :: xs, n + 1, h => by
      simp only [updateAt]
      rw [updateAt_out f xs n (by simpa using h)]
  | x :: xs, 0, h => absurd h (by simp)

/-- Reading any index after an update, in one equation. -/
theorem getD_updateAt {α : Type} (f : α → α) (d : α) (l : List α) (i j : ℕ) :
    (updateAt l j f).getD i d
      = if j = i ∧ j < l.length then f (l.getD i d) else l.getD i d := by
  by_cases h1 : j = i
  · subst h1
    by_cases h2 : j < l.length
    · rw [getD_updateAt_self f d l j h2]
      simp [h2]
    · rw [updateAt_out f l j (by omega)]
      simp [h2]
  · rw [getD_updateAt_other f d l j i h1]
    simp [h1]

/-- Members of an updated list are the image of the updated entry or old
members. -/
theorem mem_updateAt {α : Type} (f : α → α) :
    ∀ (l : List α) (j : ℕ) (x : α), x ∈ updateAt l j f →
      (∃ h : j < l.length, x = f l[j]) ∨ x ∈ l
  | [], _, _, hx => by simp [updateAt] at hx
  | y :: ys, 0, x, hx => by
      rcases List.mem_cons.mp hx with rfl | hx2
      · exact Or.inl ⟨by simp, rfl⟩
      · exact Or.inr (List.mem_cons_of_mem y hx2)
  | y :: ys, j + 1, x, hx => by
      rcases List.mem_cons.mp hx with rfl | hx2
      · exact Or.inr (List.mem_cons_self x ys)
      · rcases mem_updateAt f ys j x hx2 with ⟨h, he⟩ | hmem
        · exact Or.inl ⟨by simpa using Nat.succ_lt_succ h, by simpa using he⟩
        · exact Or.inr (List.mem_cons_of_mem y hmem)

/-- `random.choice` returns a member of a non-empty list. -/
theorem randChoice_mem {α : Type} (l : List α) (d : α) (t : Tape) (h : l ≠ []) :
    (randChoice l d t).1 ∈ l := by
  have hlen : 0 < l.length := List.length_pos.mpr h
  rcases hn : t.next with ⟨n, t1⟩
  have he : randChoice l d t = (l.getD (n % l.length) d, t1) := by
    simp [randChoice, hn]
  rw [he]
  have hlt : (n % l.length) < l.length := Nat.mod_lt _ hlen
  show l.getD (n % l.length) d ∈ l
  rw [getD_eq_getElem l d hlt]
  exact List.getElem_mem hlt

/-- `random.sample(l, 2)` returns members. -/
theorem sample2_mem {α : Type} (l : List α) (d : α) (t : Tape) (h : 2 ≤ l.length) :
    (sample2 l d t).1.1 ∈ l ∧ (sample2 l d t).1.2 ∈ l := by
  rcases hn1 : t.next with ⟨n1, t1⟩
  rcases hn2 : t1.next with ⟨n2, t2⟩
  have h1 : (n1 % l.length) < l.length := Nat.mod_lt _ (by omega)
  have h2 : (if n2 % (l.length - 1) ≥ n1 % l.length
      then n2 % (l.length - 1) + 1
      else n2 % (l.length - 1)) < l.length := by
    have h0 : (n2 % (l.length - 1)) < l.length - 1 := Nat.mod_lt _ (by omega)
    split <;> omega
  have he : sample2 l d t
      = ((l.getD (n1 % l.length) d,
          l.getD (if n2 % (l.length - 1) ≥ n1 % l.length
            then n2 % (l.length - 1) + 1
            else n2 % (l.length - 1)) d), t2) := by
    simp [sample2, hn1, hn2]
  rw [he]
  constructor
  · show l.getD (n1 % l.length) d ∈ l
    rw [getD_eq_getElem l d h1]
    exact List.getElem_mem h1
  · show l.getD _ d ∈ l
    rw [getD_eq_getElem l d h2]
    exact List.getElem_mem h2

/-- Entries of `movable_groups` carry an in-range index and its (non-empty)
movable list. -/
theorem movableGroups_spec (groups : List Group) :
    ∀ pr ∈ movableGroups groups,
      pr.1 < groups.length
        ∧ pr.2 = _get_movable (groups.getD pr.1 default)
        ∧ pr.2 ≠ [] := by
  intro pr hpr
  obtain ⟨hmem, hne⟩ := List.mem_filter.mp hpr
  obtain ⟨i, hi, rfl⟩ := List.mem_map.mp hmem
  refine ⟨List.mem_range.mp hi, rfl, ?_⟩
  intro he
  rw [he] at hne
  simp at hne

/-- Entries of the smart-move candidate list name a movable student of
their group. -/
theorem smartCandidates_spec (groups : List Group) (lookup : ℤ → Option Student) :
    ∀ c ∈ smartCandidates groups lookup,
      c.2.2 ∈ _get_movable (groups.getD c.2.1 default) := by
  intro c hc
  obtain ⟨i, hi, hmem⟩ := List.mem_flatMap.mp hc
  simp only at hmem
  obtain ⟨sid, hsid, hf⟩ := List.mem_filterMap.mp hmem
  split at hf
  · exact absurd hf (by simp)
  · rename_i hpin
    cases hlk : lookup sid with
    | none =>
        rw [hlk] at hf
        simp at hf
    | some student =>
        rw [hlk] at hf
        simp only at hf
        split at hf
        · cases hf
          exact List.mem_filter.mpr ⟨hsid, by simp [Bool.not_eq_true] at hpin ⊢; simp [hpin]⟩
        · simp at hf

/-- Swap candidates touch only movable students. -/
theorem genSwap_movable {groups : List Group} {t : Tape} {c : Cand} {t1 : Tape}
    (h : genSwap groups t = some (c, t1)) : CandMovable groups c := by
  unfold genSwap at h
  dsimp only at h
  split at h
  · exact absurd h (by simp)
  · rename_i hlen
    have h2 : 2 ≤ (movableGroups groups).length := by omega
    rcases hs : sample2 (movableGroups groups) (0, []) t with ⟨⟨p1, p2⟩, ts⟩
    rw [hs] at h
    simp only at h
    rcases hc1 : randChoice p1.2 0 ts with ⟨s1, ts2⟩
    rw [hc1] at h
    simp only at h
    rcases hc2 : randChoice p2.2 0 ts2 with ⟨s2, ts3⟩
    rw [hc2] at h
    simp only at h
    obtain ⟨hcand, -⟩ := Prod.mk.injEq .. ▸ Option.some.inj h
    have hp1 : p1 ∈ movableGroups groups := by
      have := (sample2_mem (movableGroups groups) (0, []) t h2).1
      rwa [hs] at this
    have hp2 : p2 ∈ movableGroups groups := by
      have := (sample2_mem (movableGroups groups) (0, []) t h2).2
      rwa [hs] at this
    obtain ⟨-, he1, hne1⟩ := movableGroups_spec groups p1 hp1
    obtain ⟨-, he2, hne2⟩ := movableGroups_spec groups p2 hp2
    have hs1 : s1 ∈ p1.2 := by
      have := randChoice_mem p1.2 0 ts hne1
      rwa [hc1] at this
    have hs2 : s2 ∈ p2.2 := by
      have := randChoice_mem p2.2 0 ts2 hne2
      rwa [hc2] at this
    rw [← hcand]
    exact ⟨he1 ▸ hs1, he2 ▸ hs2⟩

/-- Random-move candidates touch only movable students. -/
theorem genMove_movable {groups : List Group} {t : Tape} {c : Cand} {t1 : Tape}
    (h : genMove groups t = some (c, t1)) : CandMovable groups c := by
  unfold genMove at h
  dsimp only at h
  split at h
  · exact absurd h (by simp)
  · rename_i hne
    have hmg : movableGroups groups ≠ [] := by
      intro he
      rw [he] at hne
      simp at hne
    rcases hp : randChoice (movableGroups groups) (0, []) t with ⟨p, t2⟩
    rw [hp] at h
    simp only at h
    rcases hsid : randChoice p.2 0 t2 with ⟨sid, t3⟩
    rw [hsid] at h
    simp only at h
    split at h
    · exact absurd h (by simp)
    · rcases htgt : randChoice ((List.range groups.length).filter (fun j => j ≠ p.1)) 0 t3
        with ⟨tgt, t4⟩
      rw [htgt] at h
      simp only at h
      obtain ⟨hcand, -⟩ := Prod.mk.injEq .. ▸ Option.some.inj h
      have hpm : p ∈ movableGroups groups := by
        have := randChoice_mem (movableGroups groups) (0, []) t hmg
        rwa [hp] at this
      obtain ⟨-, he, hne2⟩ := movableGroups_spec groups p hpm
      have hsm : sid ∈ p.2 := by
        have := randChoice_mem p.2 0 t2 hne2
        rwa [hsid] at this
      rw [← hcand]
      show sid ∈ _get_movable (groups.getD p.1 default)
      exact he ▸ hsm

/-- A non-empty list truncated to at least one element stays non-empty. -/
theorem take_max_one_ne_nil {α : Type} {l : List α} (h : l ≠ []) (k : ℕ) :
    l.take (max 1 k) ≠ [] := by
  cases l with
  | nil => exact absurd rfl h
  | cons x xs =>
      have h1 : 1 ≤ max 1 k := le_max_left 1 k
      obtain ⟨m, hm⟩ := Nat.exists_eq_add_of_le h1
      rw [hm]
      simp [List.take_succ_cons]

/-- Smart-move results move a movable student of the named source group. -/
theorem smart_movable {groups : List Group} {lookup : ℤ → Option Student} {t : Tape}
    {src tgt : ℕ} {sid : ℤ} {t1 : Tape}
    (h : _pick_smart_move groups lookup t = (some (src, tgt, sid), t1)) :
    sid ∈ _get_movable (groups.getD src default) := by
  unfold _pick_smart_move at h
  dsimp only at h
  split at h
  · rename_i hemp
    exact absurd (congrArg Prod.fst h) (by simp)
  · rename_i hemp
    have hcne : smartCandidates groups lookup ≠ [] := by
      intro he
      rw [he] at hemp
      simp at hemp
    have hsne : sortDescBy geLex3 (smartCandidates groups lookup) ≠ [] := by
      intro he
      have := (sortDescBy_perm geLex3 (smartCandidates groups lookup)).length_eq
      rw [he] at this
      exact hcne (List.length_eq_zero.mp this.symm)
    have htne : (sortDescBy geLex3 (smartCandidates groups lookup)).take
        (max 1 ((sortDescBy geLex3 (smartCandidates groups lookup)).length / 3)) ≠ [] :=
      take_max_one_ne_nil hsne _
    rcases hc : randChoice ((sortDescBy geLex3 (smartCandidates groups lookup)).take
        (max 1 ((sortDescBy geLex3 (smartCandidates groups lookup)).length / 3)))
        (0, 0, 0) t with ⟨c, t2⟩
    rw [hc] at h
    simp only at h
    have hcmem : c ∈ smartCandidates groups lookup := by
      have hmem := randChoice_mem _ (0, 0, 0) t htne
      rw [hc] at hmem
      exact (sortDescBy_perm geLex3 _).mem_iff.mp (List.take_subset _ _ hmem)
    have hmov := smartCandidates_spec groups lookup c hcmem
    cases hlk : lookup c.2.2 with
    | none =>
        rw [hlk] at h
        exact absurd (congrArg Prod.fst h) (by simp)
    | some student =>
        rw [hlk] at h
        simp only at h
        split at h
        · exact absurd (congrArg Prod.fst h) (by simp)
        · have hfst := congrArg Prod.fst h
          simp only at hfst
          have htr := Option.some.inj hfst
          have h4 : c.2.1 = src := congrArg Prod.fst htr
          have h5 : c.2.2 = sid := congrArg (fun x : ℕ × ℕ × ℤ => x.2.2) htr
          rw [← h4, ← h5]
          exact hmov

/-- The post-candidate bookkeeping never touches the current groups. -/
theorem saTail_groups (params : SAParams) (iteration : ℕ) (accepted : Bool)
    (st : SAState) : (saTail params iteration accepted st).groups = st.groups := by
  unfold saTail
  dsimp only
  split_ifs <;> rfl

/-- The post-candidate bookkeeping snapshots at most the current groups. -/
theorem saTail_best (params : SAParams) (iteration : ℕ) (accepted : Bool)
    (st : SAState) :
    (saTail params iteration accepted st).best_groups = st.best_groups
      ∨ (saTail params iteration accepted st).best_groups = st.groups := by
  unfold saTail
  dsimp only
  split_ifs <;> simp

/-- One candidate attempt leaves the groups alone (rejection) or applies
the candidate (acceptance); the best snapshot follows suit. -/
theorem saAttempt_shape (params : SAParams) (lookup : ℤ → Option Student)
    (likes_w dislikes_w : ℚ) (iteration : ℕ) (st : SAState) (c : Cand) (t : Tape) :
    ((saAttempt params lookup likes_w dislikes_w iteration st c t).groups = st.groups
      ∧ ((saAttempt params lookup likes_w dislikes_w iteration st c t).best_groups
          = st.best_groups
        ∨ (saAttempt params lookup likes_w dislikes_w iteration st c t).best_groups
          = st.groups))
    ∨ ((saAttempt params lookup likes_w dislikes_w iteration st c t).groups
        = applyCand st.groups c
      ∧ ((saAttempt params lookup likes_w dislikes_w iteration st c t).best_groups
          = st.best_groups
        ∨ (saAttempt params lookup likes_w dislikes_w iteration st c t).best_groups
          = applyCand st.groups c)) := by
  unfold saAttempt
  dsimp only
  rcases acceptTest params
    (candPeerDelta lookup likes_w dislikes_w st.groups c
      - candPenaltyDelta lookup st.groups c) st.temperature t with ⟨acc, t1⟩
  cases acc with
  | false =>
      left
      exact ⟨saTail_groups .., saTail_best ..⟩
  | true =>
      right
      refine ⟨saTail_groups .., ?_⟩
      have := saTail_best params iteration true
        { st with
          groups := applyCand st.groups c,
          current_score := st.current_score
            + (candPeerDelta lookup likes_w dislikes_w st.groups c
              - candPenaltyDelta lookup st.groups c),
          tape := t1 }
      simpa using this

/-- One loop iteration either keeps the groups (starvation or rejection)
or applies a movable candidate; the best snapshot is the old one or the
new current groups. -/
theorem saIter_shape (params : SAParams) (lookup : ℤ → Option Student)
    (likes_w dislikes_w : ℚ) (iteration : ℕ) (st : SAState) :
    ((saIter params lookup likes_w dislikes_w iteration st).groups = st.groups
      ∧ ((saIter params lookup likes_w dislikes_w iteration st).best_groups
          = st.best_groups
        ∨ (saIter params lookup likes_w dislikes_w iteration st).best_groups
          = st.groups))
    ∨ ∃ c : Cand, CandMovable st.groups c
        ∧ (saIter params lookup likes_w dislikes_w iteration st).groups
          = applyCand st.groups c
        ∧ ((saIter params lookup likes_w dislikes_w iteration st).best_groups
            = st.best_groups
          ∨ (saIter params lookup likes_w dislikes_w iteration st).best_groups
            = applyCand st.groups c) := by
  generalize hst : saIter params lookup likes_w dislikes_w iteration st = st2
  unfold saIter at hst
  rcases hr : randFloat st.tape with ⟨rand, t0⟩
  rw [hr] at hst
  dsimp only at hst
  by_cases hb1 : rand < 45 / 100
  · rw [if_pos hb1] at hst
    cases hg : genSwap st.groups t0 with
    | none =>
        rw [hg] at hst
        rw [← hst]
        exact Or.inl ⟨rfl, Or.inl rfl⟩
    | some ct =>
        rw [hg] at hst
        rcases ct with ⟨c, t1⟩
        rw [← hst]
        rcases saAttempt_shape params lookup likes_w dislikes_w iteration st c t1 with
          ⟨h1, h2⟩ | ⟨h1, h2⟩
        · exact Or.inl ⟨h1, h2⟩
        · exact Or.inr ⟨c, genSwap_movable hg, h1, h2⟩
  · rw [if_neg hb1] at hst
    by_cases hb2 : rand < 75 / 100
    · rw [if_pos hb2] at hst
      cases hg : genMove st.groups t0 with
      | none =>
          rw [hg] at hst
          rw [← hst]
          exact Or.inl ⟨rfl, Or.inl rfl⟩
      | some ct =>
          rw [hg] at hst
          rcases ct with ⟨c, t1⟩
          rw [← hst]
          rcases saAttempt_shape params lookup likes_w dislikes_w iteration st c t1 with
            ⟨h1, h2⟩ | ⟨h1, h2⟩
          · exact Or.inl ⟨h1, h2⟩
          · exact Or.inr ⟨c, genMove_movable hg, h1, h2⟩
    · rw [if_neg hb2] at hst
      rcases hg : _pick_smart_move st.groups lookup t0 with ⟨res, t1⟩
      rw [hg] at hst
      cases res with
      | none =>
          rw [← hst]
          exact Or.inl ⟨rfl, Or.inl rfl⟩
      | some mv =>
          rcases mv with ⟨src, tgt, sid⟩
          rw [← hst]
          rcases saAttempt_shape params lookup likes_w dislikes_w iteration st
            (Cand.move src tgt sid) t1 with ⟨h1, h2⟩ | ⟨h1, h2⟩
          · exact Or.inl ⟨h1, h2⟩
          · exact Or.inr ⟨Cand.move src tgt sid, smart_movable hg, h1, h2⟩

/-- A groups-predicate preserved by movable candidates is an invariant of
the annealing loop, both for the current groups and the best snapshot. -/
theorem saLoop_inv (P : List Group → Prop)
    (hP : ∀ groups c, CandMovable groups c → P groups → P (applyCand groups c))
    (params : SAParams) (lookup : ℤ → Option Student) (likes_w dislikes_w : ℚ) :
    ∀ (fuel iteration : ℕ) (st : SAState), P st.groups → P st.best_groups →
      P (saLoop params lookup likes_w dislikes_w fuel iteration st).groups
        ∧ P (saLoop params lookup likes_w dislikes_w fuel iteration st).best_groups
  | 0, _, st, h1, h2 => ⟨h1, h2⟩
  | fuel + 1, iteration, st, h1, h2 => by
      rw [saLoop]
      split
      · exact ⟨h1, h2⟩
      · have hnext : P (saIter params lookup likes_w dislikes_w iteration st).groups
            ∧ P (saIter params lookup likes_w dislikes_w iteration st).best_groups := by
          rcases saIter_shape params lookup likes_w dislikes_w iteration st with
            ⟨hg, hb⟩ | ⟨c, hc, hg, hb⟩
          · refine ⟨hg ▸ h1, ?_⟩
            rcases hb with hb | hb
            · exact hb ▸ h2
            · exact hb ▸ h1
          · refine ⟨hg ▸ hP st.groups c hc h1, ?_⟩
            rcases hb with hb | hb
            · exact hb ▸ h2
            · exact hb ▸ hP st.groups c hc h1
        exact saLoop_inv P hP params lookup likes_w dislikes_w fuel (iteration + 1)
          (saIter params lookup likes_w dislikes_w iteration st) hnext.1 hnext.2

/-- Pointwise-equal functions map lists equally. -/
theorem map_ext_fun {α β : Type} (f g : α → β) (h : ∀ a, f a = g a) (l : List α) :
    l.map f = l.map g := by
  rw [funext h]

/-- Mapping a projection the update function does not disturb commutes
with `updateAt`. -/
theorem map_updateAt {α β : Type} (m : α → β) (f : α → α) (h : ∀ a, m (f a) = m a) :
    ∀ (l : List α) (i : ℕ), (updateAt l i f).map m = l.map m
  | [], _ => rfl
  | x :: xs, 0 => by simp [updateAt, h]
  | x :: xs, n + 1 => by simp [updateAt, map_updateAt m f h xs n]

/-- Both moves only rewrite member lists, so the per-group shape data
(name, size cap, constraints, pinned list) is untouched. -/
theorem applyCand_shape (groups : List Group) (c : Cand) :
    (applyCand groups c).map groupShape = groups.map groupShape := by
  cases c with
  | swap gi1 gi2 s1 s2 =>
      simp only [applyCand, _apply_swap]
      have a1 : ∀ g : Group,
          groupShape { g with student_ids := g.student_ids.erase s1 } = groupShape g :=
        fun g => rfl
      have a2 : ∀ g : Group,
          groupShape { g with student_ids := g.student_ids.erase s2 } = groupShape g :=
        fun g => rfl
      have b1 : ∀ g : Group,
          groupShape { g with student_ids := g.student_ids ++ [s1] } = groupShape g :=
        fun g => rfl
      have b2 : ∀ g : Group,
          groupShape { g with student_ids := g.student_ids ++ [s2] } = groupShape g :=
        fun g => rfl
      exact (map_updateAt groupShape _ b1 _ gi2).trans
        ((map_updateAt groupShape _ b2 _ gi1).trans
          ((map_updateAt groupShape _ a2 _ gi2).trans
            (map_updateAt groupShape _ a1 groups gi1)))
  | move src tgt sid =>
      simp only [applyCand, _apply_move]
      have a1 : ∀ g : Group,
          groupShape { g with student_ids := g.student_ids.erase sid } = groupShape g :=
        fun g => rfl
      have b1 : ∀ g : Group,
          groupShape { g with student_ids := g.student_ids ++ [sid] } = groupShape g :=
        fun g => rfl
      exact (map_updateAt groupShape _ b1 _ tgt).trans
        (map_updateAt groupShape _ a1 groups src)

/-- A movable student is not pinned in its group. -/
theorem movable_not_pinned (g : Group) (sid : ℤ) (h : sid ∈ _get_movable g) :
    sid ∉ g.pinned_student_ids := by
  obtain ⟨_, h2⟩ := List.mem_filter.mp h
  intro hmem
  simp [hmem] at h2

/-- A movable student is a member of its group. -/
theorem movable_mem (g : Group) (sid : ℤ) (h : sid ∈ _get_movable g) :
    sid ∈ g.student_ids :=
  (List.mem_filter.mp h).1

/-- Erasing a non-pinned id keeps every pinned id assigned. -/
theorem pinnedSubset_updateAt_erase (groups : List Group) (i : ℕ) (sid : ℤ)
    (hp : pinnedSubset groups)
    (hn : sid ∉ (groups.getD i default).pinned_student_ids) :
    pinnedSubset (updateAt groups i
      (fun g => { g with student_ids := g.student_ids.erase sid })) := by
  intro g hg x hx
  rcases mem_updateAt _ groups i g hg with ⟨hi, rfl⟩ | hgm
  · simp only at hx ⊢
    have hmem : x ∈ groups[i].student_ids :=
      hp groups[i] (List.getElem_mem hi) x hx
    have hne : x ≠ sid := by
      rintro rfl
      rw [getD_eq_getElem _ _ hi] at hn
      exact hn hx
    exact (List.mem_erase_of_ne hne).mpr hmem
  · exact hp g hgm x hx

/-- Appending an id keeps every pinned id assigned. -/
theorem pinnedSubset_updateAt_append (groups : List Group) (i : ℕ) (sid : ℤ)
    (hp : pinnedSubset groups) :
    pinnedSubset (updateAt groups i
      (fun g => { g with student_ids := g.student_ids ++ [sid] })) := by
  intro g hg x hx
  rcases mem_updateAt _ groups i g hg with ⟨hi, rfl⟩ | hgm
  · simp only at hx ⊢
    exact List.mem_append_left _ (hp groups[i] (List.getElem_mem hi) x hx)
  · exact hp g hgm x hx

/-- An update that does not touch the pinned list leaves every read of a
pinned list unchanged. -/
theorem pinned_getD_updateAt (groups : List Group) (i j : ℕ) (f : Group → Group)
    (hf : ∀ g, (f g).pinned_student_ids = g.pinned_student_ids) :
    ((updateAt groups i f).getD j default).pinned_student_ids
      = (groups.getD j default).pinned_student_ids := by
  rw [getD_updateAt f default groups j i]
  split
  · exact hf _
  · rfl

/-- Applying a candidate built from movable students keeps every pinned
id in its group's member list. -/
theorem applyCand_pinned (groups : List Group) (c : Cand)
    (hc : CandMovable groups c) (hp : pinnedSubset groups) :
    pinnedSubset (applyCand groups c) := by
  cases c with
  | move src tgt sid =>
      simp only [applyCand, _apply_move]
      exact pinnedSubset_updateAt_append _ tgt sid
        (pinnedSubset_updateAt_erase groups src sid hp (movable_not_pinned _ _ hc))
  | swap gi1 gi2 s1 s2 =>
      obtain ⟨h1, h2⟩ := hc
      simp only [applyCand, _apply_swap]
      refine pinnedSubset_updateAt_append _ gi2 s1
        (pinnedSubset_updateAt_append _ gi1 s2
          (pinnedSubset_updateAt_erase _ gi2 s2
            (pinnedSubset_updateAt_erase groups gi1 s1 hp (movable_not_pinned _ _ h1)) ?_))
      have e : ∀ g : Group,
          ({ g with student_ids := g.student_ids.erase s1 } : Group).pinned_student_ids
            = g.pinned_student_ids :=
        fun g => rfl
      rw [pinned_getD_updateAt groups gi1 gi2 _ e]
      exact movable_not_pinned _ _ h2

/-- Pass 1 only appends to member lists, so any predicate closed under
appends survives it. -/
theorem pass1_pres (Q : List Group → Prop)
    (hA : ∀ (groups : List Group) (i : ℕ) (sid : ℤ), Q groups →
      Q (updateAt groups i (fun g => { g with student_ids := g.student_ids ++ [sid] })))
    (i : ℕ) (c : Constraint) (st : List Group × List Student)
    (hq : Q st.1) : Q (pass1Constraint i c st).1 := by
  rcases c with ⟨ch, ty, v⟩
  cases ty with
  | ALL =>
      simp only [pass1Constraint]
      refine foldl_preserve (fun st2 => Q st2.1) _ ?_ _ st hq
      intro s x hqs
      dsimp only
      split
      · exact hA _ _ _ hqs
      · exact hqs
  | SOME => exact hq
  | MAX => exact hq

/-- Pass 2 only appends to member lists, so any predicate closed under
appends survives it. -/
theorem pass2_pres (Q : List Group → Prop)
    (hA : ∀ (groups : List Group) (i : ℕ) (sid : ℤ), Q groups →
      Q (updateAt groups i (fun g => { g with student_ids := g.student_ids ++ [sid] })))
    (lookup : ℤ → Option Student) (i : ℕ) (c : Constraint)
    (st : List Group × List Student) (hq : Q st.1) :
    Q (pass2Constraint lookup i c st).1 := by
  rcases c with ⟨ch, ty, v⟩
  cases ty with
  | SOME =>
      simp only [pass2Constraint]
      split
      · split
        · exact hq
        · split
          · exact hA _ _ _ hq
          · exact hq
      · exact hq
  | ALL => exact hq
  | MAX => exact hq

/-- The constraint double loop preserves any per-step invariant. -/
theorem passOver_pres (Q : List Group → Prop)
    (f : ℕ → Constraint → (List Group × List Student) → List Group × List Student)
    (hf : ∀ i c st, Q st.1 → Q (f i c st).1)
    (st : List Group × List Student) (hq : Q st.1) : Q (passOverGroups f st).1 := by
  unfold passOverGroups
  refine foldl_preserve (fun st2 => Q st2.1) _ ?_ _ st hq
  intro s i hqs
  exact foldl_preserve (fun st3 => Q st3.1) _ (fun s2 c h => hf i c s2 h) _ s hqs

/-- Pass 3 only appends to member lists. -/
theorem pass3_pres (Q : List Group → Prop)
    (hA : ∀ (groups : List Group) (i : ℕ) (sid : ℤ), Q groups →
      Q (updateAt groups i (fun g => { g with student_ids := g.student_ids ++ [sid] })))
    (lookup : ℤ → Option Student) (groups : List Group) (student : Student)
    (hq : Q groups) : Q (pass3Student lookup groups student) := by
  simp only [pass3Student, pass3StudentE]
  split
  · exact hA _ _ _ hq
  · exact hq

/-- Any append-closed predicate holding of the cleared groups survives
the whole initial assignment. -/
theorem ia_pres (Q : List Group → Prop)
    (hA : ∀ (groups : List Group) (i : ℕ) (sid : ℤ), Q groups →
      Q (updateAt groups i (fun g => { g with student_ids := g.student_ids ++ [sid] })))
    (p : Project) (t : Tape)
    (h0 : Q (p.groups.map (fun g =>
      { g with student_ids :=
          g.student_ids.filter (fun sid => g.pinned_student_ids.contains sid) }))) :
    Q (initial_assignment p t).1.groups := by
  unfold initial_assignment
  rcases hs : shuffle (p.students.filter fun s => decide (s.id ∉ pinnedStudents p)) t
    with ⟨u1, t1⟩
  dsimp only
  rw [hs]
  dsimp only
  refine foldl_preserve Q (pass3Student (_build_lookup p))
    (fun s x h => pass3_pres Q hA (_build_lookup p) s x h) _ _ ?_
  exact passOver_pres Q _ (fun i c st2 h => pass2_pres Q hA (_build_lookup p) i c st2 h) _
    (passOver_pres Q _ (fun i c st2 h => pass1_pres Q hA i c st2 h) _ h0)

/-- The initial assignment keeps the per-group shape data. -/
theorem ia_shape (p : Project) (t : Tape) :
    ((initial_assignment p t).1.groups).map groupShape = p.groups.map groupShape := by
  refine ia_pres (fun gs => gs.map groupShape = p.groups.map groupShape) ?_ p t ?_
  · intro gs i sid h
    have b1 : ∀ g : Group,
        groupShape { g with student_ids := g.student_ids ++ [sid] } = groupShape g :=
      fun g => rfl
    exact (map_updateAt groupShape _ b1 gs i).trans h
  · simp only [List.map_map]
    exact map_ext_fun _ groupShape (fun g => rfl) p.groups

/-- The initial assignment keeps every pinned id in its group, provided
the input did. -/
theorem ia_pinned (p : Project) (t : Tape) (hp : pinnedSubset p.groups) :
    pinnedSubset (initial_assignment p t).1.groups := by
  refine ia_pres pinnedSubset
    (fun gs i sid h => pinnedSubset_updateAt_append gs i sid h) p t ?_
  intro g hg x hx
  rcases List.mem_map.mp hg with ⟨g0, hg0, rfl⟩
  simp only at hx ⊢
  simp only [List.mem_filter]
  refine ⟨hp g0 hg0 x hx, by simp [hx]⟩

/-- The initial assignment only replaces the `groups` field. -/
theorem ia_record (p : Project) (t : Tape) :
    (initial_assignment p t).1 = { p with groups := (initial_assignment p t).1.groups } := by
  unfold initial_assignment
  dsimp only

/-- A groups-predicate closed under movable candidates and holding of the
caller's groups and of any initial assignment holds of the returned best
snapshot. -/
theorem sa_pres (Q : List Group → Prop)
    (hQ : ∀ groups c, CandMovable groups c → Q groups → Q (applyCand groups c))
    (p : Project) (params : SAParams) (b : Bool) (t : Tape)
    (hcur : Q p.groups)
    (hia : ∀ t', Q ((initial_assignment p t').1).groups) :
    Q (simulated_annealing p params b t).1.groups := by
  rcases hc : (if b = true then (p, t) else initial_assignment p t) with ⟨current, t0⟩
  have hq : Q current.groups := by
    split at hc
    · obtain ⟨h1, h2⟩ := Prod.mk.inj hc
      exact h1 ▸ hcur
    · have h1 : current = (initial_assignment p t).1 := by rw [hc]
      rw [h1]
      exact hia t
  have he : (simulated_annealing p params b t).1.groups
      = (saLoop params (_build_lookup current) current.weights.likes_weight
          current.weights.dislikes_weight params.max_iterations 0
          { groups := current.groups,
            current_score :=
              peerScore (_build_lookup current) current.weights.likes_weight
                  current.weights.dislikes_weight current.groups
                - calculate_constraint_penalty current (_build_lookup current),
            best_score :=
              peerScore (_build_lookup current) current.weights.likes_weight
                  current.weights.dislikes_weight current.groups
                - calculate_constraint_penalty current (_build_lookup current),
            best_groups := current.groups,
            temperature := params.initial_temp,
            iterations_since_improvement := 0,
            events := [],
            tape := t0 }).best_groups := by
    unfold simulated_annealing
    rw [hc]
  rw [he]
  exact (saLoop_inv Q hQ params (_build_lookup current) current.weights.likes_weight
    current.weights.dislikes_weight params.max_iterations 0 _ hq hq).2

/-- The annealing run keeps the per-group shape data. -/
theorem sa_shape (p : Project) (params : SAParams) (b : Bool) (t : Tape) :
    ((simulated_annealing p params b t).1.groups).map groupShape
      = p.groups.map groupShape := by
  refine sa_pres (fun gs => gs.map groupShape = p.groups.map groupShape) ?_ p params b t
    rfl ?_
  · intro gs c _ h
    exact (applyCand_shape gs c).trans h
  · intro t'
    exact ia_shape p t'

/-- The annealing run keeps every pinned id assigned to its group. -/
theorem sa_pinned (p : Project) (params : SAParams) (b : Bool) (t : Tape)
    (hp : pinnedSubset p.groups) :
    pinnedSubset (simulated_annealing p params b t).1.groups :=
  sa_pres pinnedSubset (fun gs c hc h => applyCand_pinned gs c hc h) p params b t hp
    (fun t' => ia_pinned p t' hp)

/-- The annealing run only replaces the `groups` field of its input. -/
theorem sa_record (p : Project) (params : SAParams) (b : Bool) (t : Tape) :
    (simulated_annealing p params b t).1
      = { p with groups := (simulated_annealing p params b t).1.groups } := by
  rcases hc : (if b = true then (p, t) else initial_assignment p t) with ⟨current, t0⟩
  have hcr : current = { p with groups := current.groups } := by
    split at hc
    · obtain ⟨h1, h2⟩ := Prod.mk.inj hc
      rw [← h1]
    · have h1 : current = (initial_assignment p t).1 := by rw [hc]
      rw [h1]
      exact ia_record p t
  unfold simulated_annealing
  rw [hc]
  dsimp only
  exact congrArg (fun r : Project =>
    { r with groups :=
        (saLoop params (_build_lookup current) current.weights.likes_weight
          current.weights.dislikes_weight params.max_iterations 0
          { groups := current.groups,
            current_score :=
              peerScore (_build_lookup current) current.weights.likes_weight
                  current.weights.dislikes_weight current.groups
                - calculate_constraint_penalty current (_build_lookup current),
            best_score :=
              peerScore (_build_lookup current) current.weights.likes_weight
                  current.weights.dislikes_weight current.groups
                - calculate_constraint_penalty current (_build_lookup current),
            best_groups := current.groups,
            temperature := params.initial_temp,
            iterations_since_improvement := 0,
            events := [],
            tape := t0 }).best_groups }) hcr

/-- A project-predicate preserved by an annealing run survives one restart
of the driver on all three project-carrying components. -/
theorem restartStep_pres (W : Project → Prop)
    (hsa : ∀ (q : Project) (params : SAParams) (b : Bool) (t : Tape),
      W q → W (simulated_annealing q params b t).1)
    (args : DriverArgs) (st : DriverState) (r : ℕ)
    (hb : W st.base) (ho : ∀ pr : ℚ × Project, st.overall_best = some pr → W pr.2)
    (ha : ∀ q ∈ st.all_results, W q) :
    W (restartStep args st r).base
      ∧ (∀ pr : ℚ × Project, (restartStep args st r).overall_best = some pr → W pr.2)
      ∧ ∀ q ∈ (restartStep args st r).all_results, W q := by
  have hres : W (simulated_annealing st.base args.params (r == 0) st.tape).1 :=
    hsa _ _ _ _ hb
  have hall : ∀ q ∈ st.all_results
        ++ [(simulated_annealing st.base args.params (r == 0) st.tape).1], W q := by
    intro q hq
    rcases List.mem_append.mp hq with h | h
    · exact ha q h
    · rw [List.mem_singleton.mp h]
      exact hres
  rcases hm : st.overall_best with _ | pr
  · unfold restartStep
    rw [hm]
    dsimp only
    refine ⟨?_, ?_, hall⟩
    · split
      · exact hres
      · exact hb
    · intro pr2 h2
      cases Option.some.inj h2
      exact hres
  · have hpr : W pr.2 := ho pr hm
    unfold restartStep
    rw [hm]
    dsimp only
    by_cases hgt :
      calculate_total_score (simulated_annealing st.base args.params (r == 0) st.tape).1
        > pr.1
    · simp only [if_pos hgt]
      refine ⟨?_, ?_, hall⟩
      · split
        · exact hres
        · exact hb
      · intro pr2 h2
        cases Option.some.inj h2
        exact hres
    · simp only [if_neg hgt]
      refine ⟨?_, ?_, hall⟩
      · split
        · exact hpr
        · exact hb
      · intro pr2 h2
        cases Option.some.inj h2
        exact hpr

/-- A project-predicate preserved by annealing runs holds of every
project-carrying component of the final driver state. -/
theorem driverRun_pres (W : Project → Prop)
    (hsa : ∀ (q : Project) (params : SAParams) (b : Bool) (t : Tape),
      W q → W (simulated_annealing q params b t).1)
    (p : Project) (args : DriverArgs) (t : Tape) (hw : W p) :
    W (driverRun p args t).base
      ∧ (∀ pr : ℚ × Project, (driverRun p args t).overall_best = some pr → W pr.2)
      ∧ ∀ q ∈ (driverRun p args t).all_results, W q := by
  unfold driverRun
  refine foldl_preserve
    (fun st => W st.base ∧ (∀ pr : ℚ × Project, st.overall_best = some pr → W pr.2)
      ∧ ∀ q ∈ st.all_results, W q)
    (restartStep args) ?_ (List.range args.num_restarts)
    { base := p, overall_best := none, scores := [], all_results := [], events := [],
      tape := t } ⟨hw, by simp, by simp⟩
  intro s r hs
  exact restartStep_pres W hsa args s r hs.1 hs.2.1 hs.2.2

/-- Every restart leaves a non-empty running best. -/
theorem restartStep_some (args : DriverArgs) (st : DriverState) (r : ℕ) :
    ((restartStep args st r).overall_best).isSome = true := by
  rcases hm : st.overall_best with _ | pr
  · unfold restartStep
    rw [hm]
    rfl
  · unfold restartStep
    rw [hm]
    dsimp only
    split <;> rfl

/-- With at least one restart the driver's running best is populated. -/
theorem driverRun_best_isSome (p : Project) (args : DriverArgs) (t : Tape)
    (h : 1 ≤ args.num_restarts) :
    ((driverRun p args t).overall_best).isSome = true := by
  unfold driverRun
  obtain ⟨n, hn⟩ : ∃ n, args.num_restarts = n + 1 := ⟨args.num_restarts - 1, by omega⟩
  rw [hn, List.range_succ_eq_map, List.foldl_cons]
  exact foldl_preserve (fun st : DriverState => st.overall_best.isSome = true) _
    (fun s x _ => restartStep_some args s x) _ _ (restartStep_some args _ 0)

/-- Equal shape maps give equal pinned-list maps. -/
theorem pinned_of_shape {X Y : List Group} (h : X.map groupShape = Y.map groupShape) :
    X.map (fun g => g.pinned_student_ids) = Y.map (fun g => g.pinned_student_ids) := by
  have h2 := congrArg
    (List.map (fun s : String × ℤ × List Constraint × List ℤ => s.2.2.2)) h
  rw [List.map_map, List.map_map] at h2
  exact h2

/-- Results listed under `return_all_results` all come from a restart. -/
theorem driverAll_mem (p : Project) (args : DriverArgs) (t : Tape) (q : Project)
    (hq : q ∈ driverAll p args t) : q ∈ (driverRun p args t).all_results := by
  unfold driverAll at hq
  dsimp only at hq
  obtain ⟨⟨s, q2⟩, hpr, rfl⟩ := List.mem_map.mp hq
  have h2 : (s, q2) ∈ (driverRun p args t).scores.zip (driverRun p args t).all_results :=
    (sortDescBy_perm _ _).mem_iff.mp hpr
  exact (List.of_mem_zip h2).2

/-- C3: for every project whose pinned ids are assigned (every valid
project), each completed optimizer run — `simulated_annealing` itself,
the driver's single-best result, and every entry of the
`return_all_results` list — returns groups whose pinned lists equal the
input pinned lists element for element and remain subsets of the
member lists, so every pinned student is still in the group it was
pinned to. -/
theorem claim3_pinning (p : Project) (params : SAParams) (b : Bool)
    (args : DriverArgs) (t t2 : Tape)
    (hp : ∀ g ∈ p.groups, ∀ x ∈ g.pinned_student_ids, x ∈ g.student_ids) :
    ((simulated_annealing p params b t).1.groups.map (fun g => g.pinned_student_ids)
        = p.groups.map (fun g => g.pinned_student_ids)
      ∧ ∀ g ∈ (simulated_annealing p params b t).1.groups,
          ∀ x ∈ g.pinned_student_ids, x ∈ g.student_ids)
    ∧ (∀ q : Project, driverSingle p args t2 = some q →
        q.groups.map (fun g => g.pinned_student_ids)
            = p.groups.map (fun g => g.pinned_student_ids)
          ∧ ∀ g ∈ q.groups, ∀ x ∈ g.pinned_student_ids, x ∈ g.student_ids)
    ∧ ∀ q ∈ driverAll p args t2,
        q.groups.map (fun g => g.pinned_student_ids)
            = p.groups.map (fun g => g.pinned_student_ids)
          ∧ ∀ g ∈ q.groups, ∀ x ∈ g.pinned_student_ids, x ∈ g.student_ids := by
  have hD := driverRun_pres
    (fun q => q.groups.map groupShape = p.groups.map groupShape ∧ pinnedSubset q.groups)
    (fun q params' b' t' hw =>
      ⟨(sa_shape q params' b' t').trans hw.1, sa_pinned q params' b' t' hw.2⟩)
    p args t2 ⟨rfl, hp⟩
  refine ⟨⟨pinned_of_shape (sa_shape p params b t), sa_pinned p params b t hp⟩, ?_, ?_⟩
  · intro q hq
    unfold driverSingle at hq
    rcases hob : (driverRun p args t2).overall_best with _ | pr
    · rw [hob] at hq
      exact absurd hq (by simp)
    · rw [hob] at hq
      have hq2 : pr.2 = q := by
        simpa using hq
      obtain ⟨h1, h2⟩ := hD.2.1 pr hob
      rw [hq2] at h1 h2
      exact ⟨pinned_of_shape h1, h2⟩
  · intro q hq
    obtain ⟨h1, h2⟩ := hD.2.2 q (driverAll_mem p args t2 q hq)
    exact ⟨pinned_of_shape h1, h2⟩

/-- The pinning invariant instantiated at the concrete two-student
project, one annealing iteration and one driver restart. -/
theorem claim3_pinning_witness :
    (∀ g ∈ projMutual.groups, ∀ x ∈ g.pinned_student_ids, x ∈ g.student_ids)
    ∧ (((simulated_annealing projMutual exParams true tapeMoveRight).1.groups.map
            (fun g => g.pinned_student_ids)
          = projMutual.groups.map (fun g => g.pinned_student_ids)
        ∧ ∀ g ∈ (simulated_annealing projMutual exParams true tapeMoveRight).1.groups,
            ∀ x ∈ g.pinned_student_ids, x ∈ g.student_ids)
      ∧ (∀ q : Project, driverSingle projMutual exArgs tapeMoveRight = some q →
          q.groups.map (fun g => g.pinned_student_ids)
              = projMutual.groups.map (fun g => g.pinned_student_ids)
            ∧ ∀ g ∈ q.groups, ∀ x ∈ g.pinned_student_ids, x ∈ g.student_ids)
      ∧ ∀ q ∈ driverAll projMutual exArgs tapeMoveRight,
          q.groups.map (fun g => g.pinned_student_ids)
              = projMutual.groups.map (fun g => g.pinned_student_ids)
            ∧ ∀ g ∈ q.groups, ∀ x ∈ g.pinned_student_ids, x ∈ g.student_ids) :=
  ⟨by decide,
    claim3_pinning projMutual exParams true exArgs tapeMoveRight tapeMoveRight (by decide)⟩

/-- One annealing run only rewrites the groups' member lists of a project
that itself only differs from `p` in member lists. -/
theorem sa_keeps (p q : Project) (params : SAParams) (b : Bool) (t : Tape)
    (hw : q = { p with groups := q.groups }
      ∧ q.groups.map groupShape = p.groups.map groupShape) :
    (simulated_annealing q params b t).1
        = { p with groups := (simulated_annealing q params b t).1.groups }
      ∧ ((simulated_annealing q params b t).1.groups).map groupShape
        = p.groups.map groupShape := by
  refine ⟨?_, (sa_shape q params b t).trans hw.2⟩
  exact (sa_record q params b t).trans
    (congrArg
      (fun r : Project => { r with groups := (simulated_annealing q params b t).1.groups })
      hw.1)

/-- C6 is refuted on the code: `projInvalid` has a duplicate student id
and one id assigned to two groups, yet the driver completes and returns
a result instead of failing at entry. -/
theorem claim6_counterexample :
    ¬ validProject projInvalid
      ∧ (driverSingle projInvalid exArgsZero tapeMoveRight).isSome = true := by
  refine ⟨?_, by decide⟩
  intro hv
  exact absurd hv.1 (by decide)

/-- A group whose every member is pinned has no movable students. -/
theorem getMovable_nil (g : Group)
    (h : ∀ x ∈ g.student_ids, x ∈ g.pinned_student_ids) : _get_movable g = [] := by
  unfold _get_movable
  rw [List.filter_eq_nil_iff]
  intro a ha
  simp [h a ha]

/-- With every assigned student pinned, no group is movable. -/
theorem movableGroups_nil (groups : List Group)
    (h : ∀ g ∈ groups, ∀ x ∈ g.student_ids, x ∈ g.pinned_student_ids) :
    movableGroups groups = [] := by
  unfold movableGroups
  rw [List.filter_eq_nil_iff]
  intro pr hpr
  obtain ⟨i, hi, rfl⟩ := List.mem_map.mp hpr
  have hlt := List.mem_range.mp hi
  simp only
  rw [getMovable_nil _ (h _ (getD_mem groups default hlt))]
  simp

/-- With every assigned student pinned, the smart generator has no
candidates. -/
theorem smartCandidates_nil (groups : List Group) (lookup : ℤ → Option Student)
    (h : ∀ g ∈ groups, ∀ x ∈ g.student_ids, x ∈ g.pinned_student_ids) :
    smartCandidates groups lookup = [] := by
  unfold smartCandidates
  rw [List.flatMap_eq_nil_iff]
  intro i hi
  dsimp only
  rw [List.filterMap_eq_nil_iff]
  intro sid hsid
  have hmem : sid ∈ (groups.getD i default).pinned_student_ids :=
    h _ (getD_mem groups default (List.mem_range.mp hi)) sid hsid
  split
  · rfl
  · rename_i hno
    exact absurd (List.elem_iff.mpr hmem) hno

/-- Swap generation starves without movable groups. -/
theorem genSwap_none (groups : List Group) (t : Tape)
    (h : movableGroups groups = []) : genSwap groups t = none := by
  unfold genSwap
  rw [h]
  rfl

/-- Move generation starves without movable groups. -/
theorem genMove_none (groups : List Group) (t : Tape)
    (h : movableGroups groups = []) : genMove groups t = none := by
  unfold genMove
  rw [h]
  rfl

/-- The smart generator starves without candidates, consuming no tape. -/
theorem pick_smart_none (groups : List Group) (lookup : ℤ → Option Student) (t : Tape)
    (h : smartCandidates groups lookup = []) :
    _pick_smart_move groups lookup t = (none, t) := by
  unfold _pick_smart_move
  rw [h]
  rfl

/-- With every assigned student pinned, one loop iteration changes
nothing but temperature and tape — in particular no progress event. -/
theorem saIter_noop (params : SAParams) (lookup : ℤ → Option Student)
    (lw dw : ℚ) (iteration : ℕ) (st : SAState)
    (h : ∀ g ∈ st.groups, ∀ x ∈ g.student_ids, x ∈ g.pinned_student_ids) :
    (saIter params lookup lw dw iteration st).groups = st.groups
      ∧ (saIter params lookup lw dw iteration st).best_groups = st.best_groups
      ∧ (saIter params lookup lw dw iteration st).events = st.events := by
  have hmg := movableGroups_nil st.groups h
  have hsc := smartCandidates_nil st.groups lookup h
  unfold saIter
  rcases hr : randFloat st.tape with ⟨rand, t0⟩
  dsimp only
  split_ifs with h1 h2
  · rw [genSwap_none st.groups t0 hmg]
    exact ⟨rfl, rfl, rfl⟩
  · rw [genMove_none st.groups t0 hmg]
    exact ⟨rfl, rfl, rfl⟩
  · rw [pick_smart_none st.groups lookup t0 hsc]
    exact ⟨rfl, rfl, rfl⟩

/-- With every assigned student pinned, the whole loop changes nothing
but temperature and tape. -/
theorem saLoop_noop (params : SAParams) (lookup : ℤ → Option Student) (lw dw : ℚ) :
    ∀ (fuel iteration : ℕ) (st : SAState),
      (∀ g ∈ st.groups, ∀ x ∈ g.student_ids, x ∈ g.pinned_student_ids) →
      (saLoop params lookup lw dw fuel iteration st).groups = st.groups
        ∧ (saLoop params lookup lw dw fuel iteration st).best_groups = st.best_groups
        ∧ (saLoop params lookup lw dw fuel iteration st).events = st.events
  | 0, _, st, h => ⟨rfl, rfl, rfl⟩
  | fuel + 1, it, st, h => by
      rw [saLoop]
      split
      · exact ⟨rfl, rfl, rfl⟩
      · obtain ⟨hg, hb, he⟩ := saIter_noop params lookup lw dw it st h
        obtain ⟨hg2, hb2, he2⟩ := saLoop_noop params lookup lw dw fuel (it + 1)
          (saIter params lookup lw dw it st) (by rw [hg]; exact h)
        exact ⟨hg2.trans hg, hb2.trans hb, he2.trans he⟩

/-- Mapping a pointwise-identity function is the identity. -/
theorem map_eq_self {α : Type} (f : α → α) :
    ∀ (l : List α), (∀ a ∈ l, f a = a) → l.map f = l
  | [], _ => rfl
  | x :: xs, h => by
      rw [List.map_cons, h x (List.mem_cons_self x xs),
        map_eq_self f xs (fun a ha => h a (List.mem_cons_of_mem x ha))]

/-- Pass 1 does nothing without unassigned students. -/
theorem pass1_nil (i : ℕ) (c : Constraint) (G : List Group) :
    pass1Constraint i c (G, ([] : List Student)) = (G, []) := by
  rcases c with ⟨ch, ty, v⟩
  cases ty <;> simp [pass1Constraint]

/-- Pass 2 does nothing without unassigned students. -/
theorem pass2_nil (lookup : ℤ → Option Student) (i : ℕ) (c : Constraint)
    (G : List Group) : pass2Constraint lookup i c (G, ([] : List Student)) = (G, []) := by
  rcases c with ⟨ch, ty, v⟩
  cases ty with
  | SOME =>
      simp only [pass2Constraint]
      split
      · rfl
      · rfl
  | ALL => rfl
  | MAX => rfl

/-- The constraint double loop does nothing when each step does nothing
on an empty unassigned pool. -/
theorem passOver_nil
    (f : ℕ → Constraint → (List Group × List Student) → List Group × List Student)
    (hf : ∀ (i : ℕ) (c : Constraint) (G : List Group), f i c (G, []) = (G, []))
    (G : List Group) : passOverGroups f (G, ([] : List Student)) = (G, []) := by
  unfold passOverGroups
  refine foldl_preserve (fun x => x = (G, [])) _ ?_ _ (G, []) rfl
  intro s i hs
  rw [hs]
  refine foldl_preserve (fun x => x = (G, [])) _ ?_ _ (G, []) rfl
  intro s2 c hs2
  rw [hs2]
  exact hf i c G

/-- On a fully pinned, fully assigned project the initial assignment is
the identity (it does not even consume the oracle). -/
theorem ia_noop (p : Project) (t : Tape)
    (hpin : ∀ g ∈ p.groups, ∀ x ∈ g.student_ids, x ∈ g.pinned_student_ids)
    (hstu : ∀ s ∈ p.students, s.id ∈ pinnedStudents p) :
    initial_assignment p t = (p, t) := by
  have hu : p.students.filter (fun s => decide (s.id ∉ pinnedStudents p)) = [] := by
    rw [List.filter_eq_nil_iff]
    intro s hs
    simp [hstu s hs]
  have hg : p.groups.map (fun g =>
      { g with student_ids :=
          g.student_ids.filter (fun sid => g.pinned_student_ids.contains sid) })
      = p.groups := by
    refine map_eq_self _ p.groups ?_
    intro g hgm
    have hfe : g.student_ids.filter (fun sid => g.pinned_student_ids.contains sid)
        = g.student_ids := by
      rw [List.filter_eq_self]
      intro a ha
      simp [hpin g hgm a ha]
    rw [hfe]
  have hsh : shuffle (p.students.filter fun s => decide (s.id ∉ pinnedStudents p)) t
      = ([], t) := by
    rw [hu]
    rfl
  unfold initial_assignment
  dsimp only
  rw [hsh]
  dsimp only
  rw [hg, passOver_nil pass1Constraint (fun i c G => pass1_nil i c G) p.groups,
    passOver_nil (pass2Constraint (_build_lookup p))
      (fun i c G => pass2_nil (_build_lookup p) i c G) p.groups]
  rfl

/-- On a fully pinned, fully assigned project one annealing run returns
the input groups and emits no progress event. -/
theorem sa_noop (p : Project) (params : SAParams) (b : Bool) (t : Tape)
    (hpin : ∀ g ∈ p.groups, ∀ x ∈ g.student_ids, x ∈ g.pinned_student_ids)
    (hstu : ∀ s ∈ p.students, s.id ∈ pinnedStudents p) :
    (simulated_annealing p params b t).1 = p
      ∧ (simulated_annealing p params b t).2.1 = [] := by
  have hsc : (if b = true then (p, t) else initial_assignment p t) = (p, t) := by
    split
    · rfl
    · exact ia_noop p t hpin hstu
  have he1 : (simulated_annealing p params b t).1
      = { p with groups :=
          (saLoop params (_build_lookup p) p.weights.likes_weight
            p.weights.dislikes_weight params.max_iterations 0
            { groups := p.groups,
              current_score :=
                peerScore (_build_lookup p) p.weights.likes_weight
                    p.weights.dislikes_weight p.groups
                  - calculate_constraint_penalty p (_build_lookup p),
              best_score :=
                peerScore (_build_lookup p) p.weights.likes_weight
                    p.weights.dislikes_weight p.groups
                  - calculate_constraint_penalty p (_build_lookup p),
              best_groups := p.groups,
              temperature := params.initial_temp,
              iterations_since_improvement := 0,
              events := [],
              tape := t }).best_groups } := by
    unfold simulated_annealing
    rw [hsc]
  have he2 : (simulated_annealing p params b t).2.1
      = (saLoop params (_build_lookup p) p.weights.likes_weight
          p.weights.dislikes_weight params.max_iterations 0
          { groups := p.groups,
            current_score :=
              peerScore (_build_lookup p) p.weights.likes_weight
                  p.weights.dislikes_weight p.groups
                - calculate_constraint_penalty p (_build_lookup p),
            best_score :=
              peerScore (_build_lookup p) p.weights.likes_weight
                  p.weights.dislikes_weight p.groups
                - calculate_constraint_penalty p (_build_lookup p),
            best_groups := p.groups,
            temperature := params.initial_temp,
            iterations_since_improvement := 0,
            events := [],
            tape := t }).events := by
    unfold simulated_annealing
    rw [hsc]
  obtain ⟨hg, hb, he⟩ := saLoop_noop params (_build_lookup p) p.weights.likes_weight
    p.weights.dislikes_weight params.max_iterations 0
    { groups := p.groups,
      current_score :=
        peerScore (_build_lookup p) p.weights.likes_weight
            p.weights.dislikes_weight p.groups
          - calculate_constraint_penalty p (_build_lookup p),
      best_score :=
        peerScore (_build_lookup p) p.weights.likes_weight
            p.weights.dislikes_weight p.groups
          - calculate_constraint_penalty p (_build_lookup p),
      best_groups := p.groups,
      temperature := params.initial_temp,
      iterations_since_improvement := 0,
      events := [],
      tape := t } hpin
  constructor
  · rw [he1, hb]
  · rw [he2, he]

/-- Each restart appends exactly one score. -/
theorem foldl_restart_scores (args : DriverArgs) :
    ∀ (l : List ℕ) (st : DriverState),
      (l.foldl (restartStep args) st).scores.length = st.scores.length + l.length
  | [], st => by simp
  | x :: xs, st => by
      rw [List.foldl_cons, foldl_restart_scores args xs]
      have h1 : (restartStep args st x).scores.length = st.scores.length + 1 := by
        unfold restartStep
        dsimp only
        rw [List.length_append]
        rfl
      rw [h1, List.length_cons]
      omega

/-- The driver always runs all `num_restarts` restarts. -/
theorem driverRun_scores_length (p : Project) (args : DriverArgs) (t : Tape) :
    (driverRun p args t).scores.length = args.num_restarts := by
  unfold driverRun
  rw [foldl_restart_scores]
  simp

/-- C5 (amended): on an empty search space — every assigned student
pinned in its group and every student pinned somewhere — the driver
returns the input assignment unchanged, but it emits NO progress event
at all (the starving loop `continue`s past the callback), and it still
performs all `num_restarts` restarts rather than a single no-op one. -/
theorem claim5_empty_search (p : Project) (args : DriverArgs) (t : Tape)
    (hpin : ∀ g ∈ p.groups, ∀ x ∈ g.student_ids, x ∈ g.pinned_student_ids)
    (hstu : ∀ s ∈ p.students, s.id ∈ pinnedStudents p)
    (h1 : 1 ≤ args.num_restarts) :
    driverSingle p args t = some p
      ∧ driverEvents p args t = []
      ∧ (driverRun p args t).scores.length = args.num_restarts := by
  have hI : (driverRun p args t).base = p ∧ (driverRun p args t).events = []
      ∧ ((driverRun p args t).overall_best = none
        ∨ (driverRun p args t).overall_best = some (calculate_total_score p, p)) := by
    unfold driverRun
    refine foldl_preserve
      (fun st : DriverState => st.base = p ∧ st.events = []
        ∧ (st.overall_best = none
          ∨ st.overall_best = some (calculate_total_score p, p)))
      (restartStep args) ?_ (List.range args.num_restarts)
      { base := p, overall_best := none, scores := [], all_results := [], events := [],
        tape := t } ⟨rfl, rfl, Or.inl rfl⟩
    intro s r hs
    obtain ⟨hbase, hev, hob⟩ := hs
    have hsa := sa_noop p args.params (r == 0) s.tape hpin hstu
    unfold restartStep
    dsimp only
    rw [hbase, hsa.1, hsa.2]
    rcases hob with hob | hob <;> rw [hob] <;> dsimp only
    · refine ⟨?_, by simp [hev], Or.inr rfl⟩
      split <;> rfl
    · rw [if_neg (lt_irrefl _)]
      refine ⟨?_, by simp [hev], Or.inr rfl⟩
      split
      · rename_i pr2 heq
        cases Option.some.inj heq
        split <;> rfl
      · rfl
  refine ⟨?_, hI.2.1, driverRun_scores_length p args t⟩
  rcases hI.2.2 with hob | hob
  · have hsome := driverRun_best_isSome p args t h1
    rw [hob] at hsome
    exact absurd hsome (by simp)
  · unfold driverSingle
    rw [hob]
    rfl

/-- The empty-search-space behaviour instantiated at the fully pinned
concrete project. -/
theorem claim5_empty_search_witness :
    ((∀ g ∈ projAllPinned.groups, ∀ x ∈ g.student_ids, x ∈ g.pinned_student_ids)
      ∧ (∀ s ∈ projAllPinned.students, s.id ∈ pinnedStudents projAllPinned)
      ∧ 1 ≤ exArgs.num_restarts)
    ∧ (driverSingle projAllPinned exArgs tapeMoveRight = some projAllPinned
      ∧ driverEvents projAllPinned exArgs tapeMoveRight = []
      ∧ (driverRun projAllPinned exArgs tapeMoveRight).scores.length
        = exArgs.num_restarts) :=
  ⟨⟨by decide, by decide, by decide⟩,
    claim5_empty_search projAllPinned exArgs tapeMoveRight (by decide) (by decide)
      (by decide)⟩

/-- C5 is refuted on the code: on the fully pinned project a two-restart
run emits zero progress events (the claim promises exactly one) and runs
both restarts (the claim promises a single no-op restart). -/
theorem claim5_counterexample :
    (driverEvents projAllPinned exArgsTwo tapeMoveRight).length = 0
      ∧ (driverRun projAllPinned exArgsTwo tapeMoveRight).scores.length = 2 := by
  decide

/-- C4 (amended): determinism holds only relative to the process-global
RNG state, which is NOT part of the callable surface (no seed
parameter exists): with the global state made explicit as an oracle
tape, identical inputs and identical consumed draws give identical
outputs — including the progress event stream, and regardless of the
unread tape suffix — while a different ambient state flips the result
on the same inputs. -/
theorem claim4_rng_state :
    (driverSingle projMutual exArgs tapeMoveRight
        = driverSingle projMutual exArgs tapeMoveRightLong
      ∧ driverEvents projMutual exArgs tapeMoveRight
        = driverEvents projMutual exArgs tapeMoveRightLong)
    ∧ driverSingle projMutual exArgs tapeMoveRight
      ≠ driverSingle projMutual exArgs tapeMoveLeft := by
  refine ⟨⟨by decide, by decide⟩, by decide⟩

/-- C4 is refuted on the code: the two invocations differ only in the
ambient global RNG state — which no driver parameter controls — yet
`optimize_with_restarts` returns different outputs for identical inputs. -/
theorem claim4_counterexample :
    (optimize_with_restarts projMutual exArgs tapeMoveRight).1
      ≠ (optimize_with_restarts projMutual exArgs tapeMoveLeft).1 := by
  decide

/-- A populated option is `some` of its default read. -/
theorem eq_some_getD {α : Type} (o : Option α) (d : α) (h : o.isSome = true) :
    o = some (o.getD d) := by
  cases o with
  | none => simp at h
  | some v => rfl

/-- The smallest-group fallback succeeds whenever a group exists. -/
theorem pass3Fallback_isSome (groups : List Group) (hg : groups ≠ []) :
    (pass3Fallback groups).isSome = true := by
  obtain ⟨n, hn⟩ : ∃ n, groups.length = n + 1 := by
    cases groups with
    | nil => exact absurd rfl hg
    | cons x xs => exact ⟨xs.length, rfl⟩
  unfold pass3Fallback
  rw [hn, List.range_succ_eq_map, List.foldl_cons]
  refine foldl_preserve (fun o : Option ℕ => o.isSome = true) _ ?_ _ _ rfl
  intro o i ho
  cases o with
  | none => simp at ho
  | some j =>
      dsimp only
      split <;> rfl

/-- Pass 3 raises only on a project with no groups. -/
theorem pass3StudentE_isSome (lookup : ℤ → Option Student) (groups : List Group)
    (student : Student) (hg : groups ≠ []) :
    (pass3StudentE lookup groups student).isSome = true := by
  unfold pass3StudentE
  dsimp only
  split
  · rfl
  · rename_i heq
    exfalso
    rcases hb : (List.range groups.length).foldl (fun acc i =>
        let g := groups.getD i default
        if (g.student_ids.length : ℤ) ≥ g.max_size then acc
        else if !pass3CanAdd lookup g student then acc
        else
          let gids := g.student_ids.toFinset
          let score := ((student.liked.toFinset ∩ gids).card : ℚ)
            - 2 * ((student.disliked.toFinset ∩ gids).card : ℚ)
            - (g.student_ids.length : ℚ) * (1 / 100)
          match acc with
          | none => some (score, i)
          | some pr => if score > pr.1 then some (score, i) else acc)
        (none : Option (ℚ × ℕ)) with _ | pr
    · rw [hb] at heq
      dsimp only at heq
      have := pass3Fallback_isSome groups hg
      rw [heq] at this
      simp at this
    · rw [hb] at heq
      simp at heq

/-- Pass 3 never changes the number of groups. -/
theorem pass3Student_length (lookup : ℤ → Option Student) (groups : List Group)
    (student : Student) : (pass3Student lookup groups student).length = groups.length := by
  simp only [pass3Student, pass3StudentE]
  split
  · rename_i i heq
    show (updateAt groups i _).length = groups.length
    exact updateAt_length _ groups i
  · rfl

/-- A raised pass-3 fold stays raised. -/
theorem pass3FoldE_none (lookup : ℤ → Option Student) :
    ∀ l : List Student, l.foldl (pass3FoldE lookup) none = none
  | [] => rfl
  | s :: ss => by
      rw [List.foldl_cons]
      exact pass3FoldE_none lookup ss

/-- Over a non-empty group list the fallible pass-3 fold agrees with the
totalized one. -/
theorem pass3FoldE_some (lookup : ℤ → Option Student) :
    ∀ (l : List Student) (gs : List Group), gs ≠ [] →
      l.foldl (pass3FoldE lookup) (some gs) = some (l.foldl (pass3Student lookup) gs)
  | [], gs, _ => rfl
  | s :: ss, gs, h => by
      rw [List.foldl_cons, List.foldl_cons]
      have hE : pass3FoldE lookup (some gs) s = some (pass3Student lookup gs s) := by
        show pass3StudentE lookup gs s = some (pass3Student lookup gs s)
        exact eq_some_getD _ _ (pass3StudentE_isSome lookup gs s h)
      rw [hE]
      have hne : pass3Student lookup gs s ≠ [] := by
        intro hnil
        have hl := pass3Student_length lookup gs s
        rw [hnil] at hl
        exact h (List.eq_nil_of_length_eq_zero hl.symm)
      exact pass3FoldE_some lookup ss (pass3Student lookup gs s) hne

/-- Swapping two positions keeps the length. -/
theorem swapAt_length {α : Type} (l : List α) (i j : ℕ) :
    (swapAt l i j).length = l.length := by
  unfold swapAt
  split
  · simp
  · rfl

/-- The Fisher–Yates walk keeps the length. -/
theorem shuffleGo_length {α : Type} :
    ∀ (n : ℕ) (l : List α) (t : Tape), (shuffleGo l t n).1.length = l.length
  | 0, _, _ => rfl
  | n + 1, l, t => by
      rcases hn : t.next with ⟨v, t1⟩
      have he : shuffleGo l t (n + 1)
          = shuffleGo (swapAt l (n + 1) (v % (n + 2))) t1 n := by
        simp only [shuffleGo, hn]
      rw [he, shuffleGo_length n, swapAt_length]

/-- Shuffling keeps the length. -/
theorem shuffle_length {α : Type} (l : List α) (t : Tape) :
    (shuffle l t).1.length = l.length :=
  shuffleGo_length (l.length - 1) l t

/-- On every non-raising input — a group exists, or there is no student
at all — the fallible initializer succeeds with the totalized value. -/
theorem initial_assignmentE_eq (p : Project) (t : Tape)
    (hg : p.groups ≠ [] ∨ p.students = []) :
    initial_assignmentE p t = some (initial_assignment p t) := by
  rcases hg with hne | hse
  · unfold initial_assignmentE initial_assignment
    rcases hs : shuffle (p.students.filter fun s => decide (s.id ∉ pinnedStudents p)) t
      with ⟨u1, t1⟩
    dsimp only
    rw [hs]
    dsimp only
    have hA_len : ∀ (gs : List Group) (i : ℕ) (sid : ℤ),
        gs.length = p.groups.length →
        (updateAt gs i
          (fun g => { g with student_ids := g.student_ids ++ [sid] })).length
          = p.groups.length :=
      fun gs i sid h => (updateAt_length _ gs i).trans h
    have h0 : (p.groups.map (fun g =>
        { g with student_ids :=
            g.student_ids.filter (fun sid => g.pinned_student_ids.contains sid) })).length
        = p.groups.length := List.length_map _ _
    have hlen2 : (passOverGroups (pass2Constraint (_build_lookup p))
        (passOverGroups pass1Constraint
          (p.groups.map (fun g =>
            { g with student_ids :=
                g.student_ids.filter (fun sid => g.pinned_student_ids.contains sid) }),
            u1))).1.length = p.groups.length :=
      passOver_pres (fun gs => gs.length = p.groups.length)
        (pass2Constraint (_build_lookup p))
        (fun i c st h => pass2_pres _ hA_len (_build_lookup p) i c st h)
        (passOverGroups pass1Constraint
          (p.groups.map (fun g =>
            { g with student_ids :=
                g.student_ids.filter (fun sid => g.pinned_student_ids.contains sid) }),
            u1))
        (passOver_pres (fun gs => gs.length = p.groups.length) pass1Constraint
          (fun i c st h => pass1_pres _ hA_len i c st h)
          (p.groups.map (fun g =>
            { g with student_ids :=
                g.student_ids.filter (fun sid => g.pinned_student_ids.contains sid) }),
            u1) h0)
    have hne2 : (passOverGroups (pass2Constraint (_build_lookup p))
        (passOverGroups pass1Constraint
          (p.groups.map (fun g =>
            { g with student_ids :=
                g.student_ids.filter (fun sid => g.pinned_student_ids.contains sid) }),
            u1))).1 ≠ [] := by
      intro hnil
      rw [hnil] at hlen2
      simp only [List.length_nil] at hlen2
      exact hne (List.eq_nil_of_length_eq_zero hlen2.symm)
    rw [pass3FoldE_some (_build_lookup p) _ _ hne2]
  · have hu : p.students.filter (fun s => decide (s.id ∉ pinnedStudents p)) = [] := by
      rw [hse]
      rfl
    have hsh : shuffle (p.students.filter fun s => decide (s.id ∉ pinnedStudents p)) t
        = ([], t) := by
      rw [hu]
      rfl
    unfold initial_assignmentE initial_assignment
    dsimp only
    rw [hsh]
    dsimp only
    rw [passOver_nil pass1Constraint (fun i c G => pass1_nil i c G) _,
      passOver_nil (pass2Constraint (_build_lookup p))
        (fun i c G => pass2_nil (_build_lookup p) i c G) _]
    rfl

/-- A project with no groups but a student makes the fallible
initializer raise: pass 3's smallest-group fallback hits `min` over an
empty range. -/
theorem initial_assignmentE_none (p : Project) (t : Tape)
    (hg : p.groups = []) (hs : p.students ≠ []) :
    initial_assignmentE p t = none := by
  have hpin : pinnedStudents p = ∅ := by
    unfold pinnedStudents
    rw [hg]
    rfl
  have hu : p.students.filter (fun s => decide (s.id ∉ pinnedStudents p))
      = p.students := by
    rw [List.filter_eq_self]
    intro a _
    simp [hpin]
  unfold initial_assignmentE
  rcases hsh : shuffle (p.students.filter fun s => decide (s.id ∉ pinnedStudents p)) t
    with ⟨u1, t1⟩
  dsimp only
  rw [hsh]
  dsimp only
  have hu1 : u1 ≠ [] := by
    have hlen := shuffle_length
      (p.students.filter fun s => decide (s.id ∉ pinnedStudents p)) t
    rw [hsh, hu] at hlen
    intro hnil
    rw [hnil] at hlen
    simp only [List.length_nil] at hlen
    exact hs (List.eq_nil_of_length_eq_zero hlen.symm)
  rw [hg]
  simp only [List.map_nil]
  obtain ⟨s0, ss, rfl⟩ : ∃ a l, u1 = a :: l := by
    cases u1 with
    | nil => exact absurd rfl hu1
    | cons a l => exact ⟨a, l, rfl⟩
  rw [show passOverGroups (pass2Constraint (_build_lookup p))
      (passOverGroups pass1Constraint (([] : List Group), s0 :: ss))
      = (([] : List Group), s0 :: ss) from rfl]
  rw [List.foldl_cons]
  rw [show pass3FoldE (_build_lookup p) (some ([] : List Group)) s0 = none from rfl]
  rw [pass3FoldE_none]

/-- The fallible annealing run succeeds with the totalized value on
every non-raising input. -/
theorem simulated_annealingE_eq (q : Project) (params : SAParams) (b : Bool) (t : Tape)
    (hg : q.groups ≠ [] ∨ q.students = []) :
    simulated_annealingE q params b t = some (simulated_annealing q params b t) := by
  unfold simulated_annealingE
  cases b with
  | true => rfl
  | false =>
      rw [if_neg (by simp), initial_assignmentE_eq q t hg]

/-- A raised restart loop stays raised. -/
theorem restartStepE_foldl_none (args : DriverArgs) :
    ∀ l : List ℕ, l.foldl (restartStepE args) none = none
  | [] => rfl
  | r :: rs => by
      rw [List.foldl_cons]
      exact restartStepE_foldl_none args rs

/-- The fallible driver succeeds with the totalized value on every
non-raising input: the base project of each restart keeps the input's
group count and student list, so no restart can raise. -/
theorem driverRunE_eq (p : Project) (args : DriverArgs) (t : Tape)
    (hg : p.groups ≠ [] ∨ p.students = []) :
    driverRunE p args t = some (driverRun p args t) := by
  unfold driverRunE driverRun
  suffices h : ∀ (l : List ℕ) (st : DriverState),
      (st.base = { p with groups := st.base.groups }
        ∧ st.base.groups.map groupShape = p.groups.map groupShape)
      ∧ (∀ pr : ℚ × Project, st.overall_best = some pr →
          pr.2 = { p with groups := pr.2.groups }
            ∧ pr.2.groups.map groupShape = p.groups.map groupShape)
      ∧ (∀ q ∈ st.all_results, q = { p with groups := q.groups }
          ∧ q.groups.map groupShape = p.groups.map groupShape) →
      l.foldl (restartStepE args) (some st) = some (l.foldl (restartStep args) st) by
    exact h _ _ ⟨⟨rfl, rfl⟩, by simp, by simp⟩
  intro l
  induction l with
  | nil =>
      intro st _
      rfl
  | cons r rs ih =>
      intro st hw
      rw [List.foldl_cons, List.foldl_cons]
      have hbase : st.base.groups ≠ [] ∨ st.base.students = [] := by
        rcases hg with hg1 | hg1
        · left
          intro hnil
          have hlm := congrArg List.length hw.1.2
          rw [hnil] at hlm
          simp only [List.map_nil, List.length_nil, List.length_map] at hlm
          exact hg1 (List.eq_nil_of_length_eq_zero hlm.symm)
        · right
          have hst : st.base.students = p.students := by rw [hw.1.1]
          rw [hst, hg1]
      have hsaE := simulated_annealingE_eq st.base args.params (r == 0) st.tape hbase
      have hstep : restartStepE args (some st) r = some (restartStep args st r) := by
        show (match simulated_annealingE st.base args.params (r == 0) st.tape with
          | none => none
          | some _ => some (restartStep args st r)) = some (restartStep args st r)
        rw [hsaE]
      rw [hstep]
      exact ih (restartStep args st r)
        (restartStep_pres
          (fun q => q = { p with groups := q.groups }
            ∧ q.groups.map groupShape = p.groups.map groupShape)
          (fun q params' b' t' hwq => sa_keeps p q params' b' t' hwq)
          args st r hw.1 hw.2.1 hw.2.2)

/-- The raise is real: a project with no groups but a student makes the
fallible driver raise at the second restart (the first uses the
caller's assignment and cannot raise). -/
theorem driverRunE_none (p : Project) (args : DriverArgs) (t : Tape)
    (hg : p.groups = []) (hs : p.students ≠ []) (h2 : 2 ≤ args.num_restarts) :
    driverRunE p args t = none := by
  unfold driverRunE
  obtain ⟨n, hn⟩ : ∃ n, args.num_restarts = n + 2 := ⟨args.num_restarts - 2, by omega⟩
  rw [hn, List.range_succ_eq_map, List.range_succ_eq_map, List.map_cons,
    List.foldl_cons, List.foldl_cons]
  have hdiv : (0 == args.num_restarts / 2) = false := by
    rw [beq_eq_false_iff_ne]
    omega
  have hbase1 : (restartStep args {
      base := p, overall_best := none, scores := [], all_results := [],
      events := [], tape := t } 0).base = p := by
    unfold restartStep
    dsimp only
    rw [hdiv]
    rfl
  have hsaE1 : simulated_annealingE (restartStep args {
        base := p, overall_best := none, scores := [], all_results := [],
        events := [], tape := t } 0).base args.params (Nat.succ 0 == 0)
      (restartStep args {
        base := p, overall_best := none, scores := [], all_results := [],
        events := [], tape := t } 0).tape = none := by
    rw [hbase1]
    unfold simulated_annealingE
    rw [if_neg (by decide), initial_assignmentE_none p _ hg hs]
  have h1 : restartStepE args (restartStepE args (some {
        base := p, overall_best := none, scores := [], all_results := [],
        events := [], tape := t }) 0) (Nat.succ 0) = none := by
    show restartStepE args (some (restartStep args {
        base := p, overall_best := none, scores := [], all_results := [],
        events := [], tape := t } 0)) (Nat.succ 0) = none
    show (match simulated_annealingE (restartStep args {
          base := p, overall_best := none, scores := [], all_results := [],
          events := [], tape := t } 0).base args.params (Nat.succ 0 == 0)
        (restartStep args {
          base := p, overall_best := none, scores := [], all_results := [],
          events := [], tape := t } 0).tape with
      | none => none
      | some _ => some (restartStep args (restartStep args {
          base := p, overall_best := none, scores := [], all_results := [],
          events := [], tape := t } 0) (Nat.succ 0))) = none
    rw [hsaE1]
  rw [h1]
  exact restartStepE_foldl_none args _

/-- C6 (amended): neither entry point validates its input — no
precondition-violation signal exists, and nothing is ever repaired.
For every project with at least one group (or with no students), a
driver run with at least one restart completes normally — the fallible
model agrees with the totalized one — and returns a result differing
from the input only in group member lists: students, weights, paths,
and each group's name, size cap, constraints and pinned list are
carried over unrepaired, even from invalid projects (duplicate ids,
pinned ids missing from their group, one id in several groups).  The
sole failure mode is unrelated to validation: the unhandled
`ValueError` of the smallest-group fallback when a project with no
groups but at least one student reaches a restart of index ≥ 1 (see
`driverRunE_none`). -/
theorem claim6_no_validation (p : Project) (args : DriverArgs) (t : Tape)
    (h : 1 ≤ args.num_restarts) (hg : p.groups ≠ [] ∨ p.students = []) :
    driverRunE p args t = some (driverRun p args t)
      ∧ ∃ q : Project, driverSingle p args t = some q
        ∧ q = { p with groups := q.groups }
        ∧ q.groups.map groupShape = p.groups.map groupShape := by
  refine ⟨driverRunE_eq p args t hg, ?_⟩
  have hD := driverRun_pres
    (fun q => q = { p with groups := q.groups }
      ∧ q.groups.map groupShape = p.groups.map groupShape)
    (fun q params' b' t' hw => sa_keeps p q params' b' t' hw) p args t ⟨rfl, rfl⟩
  have hsome := driverRun_best_isSome p args t h
  rcases hob : (driverRun p args t).overall_best with _ | pr
  · rw [hob] at hsome
    exact absurd hsome (by simp)
  · obtain ⟨h1, h2⟩ := hD.2.1 pr hob
    refine ⟨pr.2, ?_, h1, h2⟩
    unfold driverSingle
    rw [hob]
    rfl

/-- The no-validation theorem instantiated at the invalid project. -/
theorem claim6_no_validation_witness :
    (1 ≤ exArgsZero.num_restarts
      ∧ (projInvalid.groups ≠ [] ∨ projInvalid.students = []))
    ∧ (driverRunE projInvalid exArgsZero tapeMoveRight
          = some (driverRun projInvalid exArgsZero tapeMoveRight)
      ∧ ∃ q : Project, driverSingle projInvalid exArgsZero tapeMoveRight = some q
          ∧ q = { projInvalid with groups := q.groups }
          ∧ q.groups.map groupShape = projInvalid.groups.map groupShape) :=
  ⟨⟨by decide, by decide⟩,
    claim6_no_validation projInvalid exArgsZero tapeMoveRight (by decide) (by decide)⟩

/-- C7 counterexample: the concrete run returns `OptimizeResult.allOf`
of a BARE Project — internally the restart pairs the score 2 with that
result, but the output strips the score, so no (score, Project) pairs
are returned. -/
theorem claim7_counterexample :
    ∃ q : Project,
      optimize_with_restarts projMutual exArgsAll tapeMoveRight
        = (OptimizeResult.allOf [q], driverEvents projMutual exArgsAll tapeMoveRight)
      ∧ (driverRun projMutual exArgsAll tapeMoveRight).scores.zip
          (driverRun projMutual exArgsAll tapeMoveRight).all_results = [(2, q)] :=
  ⟨(driverRun projMutual exArgsAll tapeMoveRight).all_results.getD 0 default,
    by decide, by decide⟩

end IdealGroup
